import Mathlib

/-!
Verification development for the thematic-research-summary instruction
generator.  The definitions below are a shallow embedding of the Python
source (`app_backend.py`, `app_frontend.py`, `app_terminal.py`): pure
functions become Lean functions, Python exceptions become `Except`,
Python `None` becomes `Option.none`, insertion-ordered `dict`s become
association lists, and floats become rationals.
-/

set_option maxRecDepth 8000

namespace S2P

/-! ## Python primitives -/

/-- Python list indexing `l[i]`: non-negative indices from the front,
negative indices from the back, `IndexError` otherwise. -/
def pyListGet {α : Type} (l : List α) (i : Int) : Except String α :=
  let j : Int := if 0 ≤ i then i else (l.length : Int) + i
  if 0 ≤ j then
    match l.get? j.toNat with
    | some x => Except.ok x
    | none => Except.error "list index out of range"
  else Except.error "list index out of range"

/-- Lookup in an insertion-ordered dictionary (association list),
mirroring Python `dict.get`. -/
def dictFind {β : Type} (m : List (String × β)) (k : String) : Option β :=
  (m.find? (fun p => p.1 == k)).map (fun p => p.2)

/-- Update an insertion-ordered dictionary: an existing key keeps its
position, a new key is appended at the end (Python `dict` semantics for
`d[k] = v` / `setdefault`). -/
def dictSet {β : Type} (m : List (String × β)) (k : String) (v : β) :
    List (String × β) :=
  match m with
  | [] => [(k, v)]
  | (k', v') :: rest =>
      if k' == k then (k, v) :: rest else (k', v') :: dictSet rest k v

/-! ## Data model of `analyze_feedback_patterns` (app_backend.py:723-801)

A correction record as read by the analyzer with `correction.get(...)`
defaults already applied. -/

structure Correction where
  original_classification : String
  new_classification : String
  feedback : String
  index : Int
deriving Repr, DecidableEq

/-- The `feedback_data` dict: only its `feedback` key is read. -/
structure FeedbackData where
  feedback : List Correction
deriving Repr, DecidableEq

/-- One entry of `results`: only `response_text` is read. -/
structure ResultEntry where
  response_text : String
deriving Repr, DecidableEq

/-- One element of a pattern's `examples` list (app_backend.py:763-767). -/
structure PatternExample where
  response : String
  feedback : String
  index : Int
deriving Repr, DecidableEq

/-- Value stored under a key of `misclassification_patterns`. -/
structure PatternData where
  count : Nat
  examples : List PatternExample
deriving Repr, DecidableEq

/-- One element of `common_errors` (app_backend.py:788-792). -/
structure CommonError where
  pattern : String
  count : Nat
  examples : List PatternExample
deriving Repr, DecidableEq

/-- One element of `specific_examples` (app_backend.py:777-783). -/
structure SpecificExample where
  original_classification : String
  corrected_classification : String
  response_text : String
  user_feedback : String
  index : Int
deriving Repr, DecidableEq

/-- The `patterns` dict returned by the analyzer (app_backend.py:734-740). -/
structure FeedbackAnalysis where
  total_corrections : Nat
  misclassification_patterns : List (String × PatternData)
  category_confusion_matrix : List (String × List (String × Nat))
  common_errors : List CommonError
  specific_examples : List SpecificExample
deriving Repr, DecidableEq

/-- Mutable state threaded through the `for correction in corrections`
loop of `analyze_feedback_patterns`. -/
structure AnalyzerAcc where
  patterns : List (String × PatternData)
  matrix : List (String × List (String × Nat))
  specific : List SpecificExample
deriving Repr, DecidableEq

/-- The misclassification-pattern key `f"{original} → {corrected}"`. -/
def patternKey (c : Correction) : String :=
  c.original_classification ++ " → " ++ c.new_classification

/-- The snippet resolution of app_backend.py:750-752:
`response_text = ''` then, when `index < len(results)`,
`results[index].get('response_text', '')[:100] + '...'`.  The negative
half of Python's `<` guard lets negative indices through to the list
access, which raises below `-len(results)`. -/
def responseSnippet (results : List ResultEntry) (index : Int) :
    Except String String :=
  if index < (results.length : Int) then do
    let r ← pyListGet results index
    pure (r.response_text.take 100 ++ "...")
  else pure ""

/-- Body of the loop over one correction (app_backend.py:743-783).
The only statement that can raise is the `results[index]` access, hence
the `Except`. -/
def analyzeStep (results : List ResultEntry) (acc : AnalyzerAcc)
    (c : Correction) : Except String AnalyzerAcc := do
  let response_text : String ← responseSnippet results c.index
  -- misclassification_patterns[pattern_key]: setdefault, count += 1,
  -- examples.append(...)
  let key := patternKey c
  let cur : PatternData := (dictFind acc.patterns key).getD ⟨0, []⟩
  let patterns' := dictSet acc.patterns key
    ⟨cur.count + 1, cur.examples ++ [⟨response_text, c.feedback, c.index⟩]⟩
  -- category_confusion_matrix[original][corrected] += 1
  let row : List (String × Nat) :=
    (dictFind acc.matrix c.original_classification).getD []
  let cell : Nat := (dictFind row c.new_classification).getD 0
  let matrix' := dictSet acc.matrix c.original_classification
    (dictSet row c.new_classification (cell + 1))
  -- specific_examples.append(...)
  let specific' := acc.specific ++
    [⟨c.original_classification, c.new_classification, response_text,
      c.feedback, c.index⟩]
  pure ⟨patterns', matrix', specific'⟩

/-- Stable insertion of a `common_errors` entry for a sort that is
descending by `count`; on ties the inserted (originally earlier)
element stays in front, matching the stability of Python's
`list.sort(key=..., reverse=True)`. -/
def insertCommonDesc (x : CommonError) : List CommonError → List CommonError
  | [] => [x]
  | y :: ys =>
      if y.count ≤ x.count then x :: y :: ys else y :: insertCommonDesc x ys

/-- Stable descending-by-count sort, the meaning of
`patterns['common_errors'].sort(key=lambda x: x['count'], reverse=True)`
(app_backend.py:795). -/
def sortCommonDesc : List CommonError → List CommonError
  | [] => []
  | x :: xs => insertCommonDesc x (sortCommonDesc xs)

/-- Build `common_errors` (app_backend.py:786-795): keep patterns whose
count exceeds 1 in dict (first-encounter) order, cap each entry's
examples at 2, then stably sort by count descending. -/
def commonErrorsOf (patterns : List (String × PatternData)) :
    List CommonError :=
  sortCommonDesc
    ((patterns.filter (fun p => 1 < p.2.count)).map
      (fun p => ⟨p.1, p.2.count, p.2.examples.take 2⟩))

/-- The `try` body of `analyze_feedback_patterns` (app_backend.py:725-797):
`None` for a missing/empty batch, otherwise the aggregation loop followed
by the `common_errors` pass. -/
def analyzeBody (feedback_data : Option FeedbackData)
    (results : List ResultEntry) : Except String (Option FeedbackAnalysis) :=
  match feedback_data with
  | none => Except.ok none
  | some fd =>
      -- `not feedback_data.get('feedback')` and the redundant
      -- `if not corrections` check (app_backend.py:726-731)
      if fd.feedback = [] then Except.ok none
      else do
        let acc ← fd.feedback.foldlM (analyzeStep results) ⟨[], [], []⟩
        pure (some
          { total_corrections := fd.feedback.length
            misclassification_patterns := acc.patterns
            category_confusion_matrix := acc.matrix
            common_errors := commonErrorsOf acc.patterns
            specific_examples := acc.specific })

/-- `analyze_feedback_patterns` (app_backend.py:723-801): the
`except Exception` handler turns any internal error into `None`. -/
def analyze_feedback_patterns (feedback_data : Option FeedbackData)
    (results : List ResultEntry) : Option FeedbackAnalysis :=
  match analyzeBody feedback_data results with
  | Except.ok o => o
  | Except.error _ => none

/-- Sum of `count` over all entries of a `misclassification_patterns`
dictionary. -/
def sumCounts (m : List (String × PatternData)) : Nat :=
  (m.map (fun p => p.2.count)).sum

/-! ## Data model of `generate_refined_prompt` (app_backend.py:803-888)

The value of one entry of the `classes` dict: only `name` and
`description` are read. -/

structure ClassInfo where
  name : String
  description : String
deriving Repr, DecidableEq

/-- The lines a `common_errors` entry contributes to
`improvement_context` (app_backend.py:822-827). -/
def commonErrorContext (e : CommonError) : List String :=
  ("- " ++ e.pattern ++ " (occurred " ++ toString e.count ++ " times)") ::
    (match e.examples with
     | [] => []
     | ex :: _ =>
         ("  Example: \"" ++ ex.response ++ "\"") ::
           (if ex.feedback ≠ "" then
             ["  User noted: \"" ++ ex.feedback ++ "\""]
            else []))

/-- The lines a `specific_examples` entry contributes to
`improvement_context` (app_backend.py:832-837). -/
def specificExampleContext (s : SpecificExample) : List String :=
  ("- Response: \"" ++ s.response_text ++ "\"") ::
    ("  AI classified as: " ++ s.original_classification) ::
      ("  Should be: " ++ s.corrected_classification) ::
        (if s.user_feedback ≠ "" then
          ["  User explanation: \"" ++ s.user_feedback ++ "\""]
         else [])

/-- `improvement_context` (app_backend.py:817-837): the top-3
common errors followed by the top-3 specific examples. -/
def improvementContext (fa : FeedbackAnalysis) : List String :=
  (if fa.common_errors ≠ [] then
    "COMMON MISCLASSIFICATION PATTERNS:" ::
      ((fa.common_errors.take 3).map commonErrorContext).flatten
   else []) ++
  (if fa.specific_examples ≠ [] then
    "\nSPECIFIC CORRECTION EXAMPLES:" ::
      ((fa.specific_examples.take 3).map specificExampleContext).flatten
   else [])

/-- `refinement_request` (app_backend.py:840-863), the first delegated
completion prompt. -/
def refinementRequest (original_prompt : String) (fa : FeedbackAnalysis)
    (classes : List (String × ClassInfo))
    (summary_description : String) : String :=
  let class_details := classes.map
    (fun p => "- " ++ p.2.name ++ ": " ++ p.2.description)
  let class_names := classes.map (fun p => p.2.name)
  "You are tasked with improving a scoring prompt based on user feedback. The current prompt has some classification errors that need to be addressed.\n\nCURRENT PROMPT:\n"
    ++ original_prompt
    ++ "\n\n        ORIGINAL SUMMARIZATION CRITERIA:\n        "
    ++ summary_description
    ++ "\n\nCLASSIFICATION CATEGORIES:\n"
    ++ String.intercalate "\n" class_details
    ++ "\n\nFEEDBACK ANALYSIS:\n"
    ++ String.intercalate "\n" (improvementContext fa)
    ++ "\n\nPlease improve the prompt by:\n1. Adding specific guidance to address the misclassification patterns identified above\n2. Clarifying distinctions between categories that were frequently confused\n4. Maintaining the overall structure and batch processing format\n5. Using the exact category names: "
    ++ String.intercalate ", " class_names
    ++ "\n6. Minimizing the amount of extra text that is added to the prompt.\n\nFocus on preventing the specific errors identified in the feedback. Be precise and specific in your improvements.\n\nGenerate the improved prompt:"

/-- `rationale_request` (app_backend.py:869-880), the second delegated
completion prompt (the `  # Limit context for rationale` text sits
inside the f-string in the source, so it is part of the prompt). -/
def rationaleRequest (improvement_context : List String) : String :=
  "Based on the feedback analysis provided, explain in 2-3 simple bullet points why the following changes were made to improve the prompt:\n\nORIGINAL ISSUES IDENTIFIED:\n"
    ++ String.intercalate "\n" (improvement_context.take 10)
    ++ "  # Limit context for rationale\n\nProvide a concise explanation of the key improvements made to address these classification errors. Format your response as plain text using simple em dashes for bullet points, like this:\n\n— Added specific guidance to prevent confusion between X and Y categories\n— Clarified edge case handling for ambiguous responses  \n— Enhanced examples to improve consistency\n\nUse simple, readable formatting with em dashes (—) for bullets. Focus on the technical reasoning behind the specific changes made."

/-- `generate_refined_prompt` (app_backend.py:803-888).  The delegated
LLM wrapper `self.generate_response` is the external collaborator
`gen`; a failed call is `Except.error` with the exception text.  The
returned `Nat` instruments how many delegated calls were issued, for
the zero-calls property of the no-op path.  The `except` handler of the
source maps any raised error to
`(original_prompt, f"Error generating improvements: {str(e)}")`. -/
def generate_refined_prompt (gen : String → Except String String)
    (original_prompt : String) (feedback_analysis : Option FeedbackAnalysis)
    (classes : List (String × ClassInfo)) (summary_description : String) :
    (String × String) × Nat :=
  match feedback_analysis with
  | none =>
      ((original_prompt, "No significant patterns found for improvement."), 0)
  | some fa =>
      if fa.misclassification_patterns = [] then
        ((original_prompt, "No significant patterns found for improvement."), 0)
      else
        match gen (refinementRequest original_prompt fa classes
            summary_description) with
        | Except.error e =>
            ((original_prompt, "Error generating improvements: " ++ e), 1)
        | Except.ok improved_prompt =>
            match gen (rationaleRequest (improvementContext fa)) with
            | Except.error e =>
                ((original_prompt, "Error generating improvements: " ++ e), 2)
            | Except.ok rationale =>
                ((improved_prompt.trim, rationale.trim), 2)

/-! ## Data model of the iteration counter (app_backend.py:1213-1225,
app_frontend.py:55-72, 598-710, 720-839, app_terminal.py:911-1012) -/

/-- The slice of the Flask/`SessionManager` session relevant to
iteration counting: the `'iteration_count'` key, absent in a brand-new
session. -/
structure PySession where
  iteration_count : Option Nat
deriving Repr, DecidableEq

/-- `get_iteration_count` (app_backend.py:1213-1215):
`self.session.get('iteration_count', 0)`. -/
def get_iteration_count (s : PySession) : Nat :=
  s.iteration_count.getD 0

/-- `increment_iteration_count` (app_backend.py:1217-1221): set
`current + 1`, then return the freshly stored value. -/
def increment_iteration_count (s : PySession) : PySession × Nat :=
  let current := get_iteration_count s
  let s' : PySession := ⟨some (current + 1)⟩
  (s', s'.iteration_count.getD 0)

/-- `reset_iteration_count` (app_backend.py:1223-1225). -/
def reset_iteration_count (_s : PySession) : PySession :=
  ⟨some 0⟩

/-- The events that touch the iteration counter, one per handler. -/
inductive IterEvent
  | newSession
  /-- `/iterate_prompt` (app_frontend.py:720-778) and the dev-mode
  branch of `submit_feedback` (app_frontend.py:602, 627-655): guarded by
  `current_iteration >= 3`; on success it saves
  `current_iteration_data` for review and does not increment. -/
  | iterateRequest
  /-- `/approve_iteration` (app_frontend.py:780-816): requires pending
  `current_iteration_data`, increments, clears the pending data. -/
  | approve
  /-- `/reject_iteration` (app_frontend.py:822-836): clears the pending
  data, never touches the counter. -/
  | reject
  /-- The production branch of `submit_feedback`
  (app_frontend.py:602, 657-679) and the terminal approve path
  (app_terminal.py:914, 986-1009): guarded by `current_iteration < 3`,
  increments on approval. -/
  | autoApply
deriving Repr, DecidableEq

/-- Workflow state: the session counter plus whether
`current_iteration_data` is non-empty (pending review). -/
structure WorkflowState where
  session : PySession
  pending : Bool
deriving Repr, DecidableEq

inductive IterResponse
  | ok
  | rejected
deriving Repr, DecidableEq

/-- One request handled, as the handlers above do it. -/
def iterStep (st : WorkflowState) (e : IterEvent) :
    WorkflowState × IterResponse :=
  match e with
  | IterEvent.newSession =>
      (⟨reset_iteration_count st.session, false⟩, IterResponse.ok)
  | IterEvent.iterateRequest =>
      if 3 ≤ get_iteration_count st.session then (st, IterResponse.rejected)
      else (⟨st.session, true⟩, IterResponse.ok)
  | IterEvent.approve =>
      if st.pending then
        (⟨(increment_iteration_count st.session).1, false⟩, IterResponse.ok)
      else (st, IterResponse.rejected)
  | IterEvent.reject => (⟨st.session, false⟩, IterResponse.ok)
  | IterEvent.autoApply =>
      if get_iteration_count st.session < 3 then
        (⟨(increment_iteration_count st.session).1, false⟩, IterResponse.ok)
      else (st, IterResponse.rejected)

/-- A brand-new session: no `'iteration_count'` key, no pending
iteration data. -/
def initWorkflowState : WorkflowState := ⟨⟨none⟩, false⟩

/-- States reachable from a brand-new session through the handlers. -/
inductive ReachableIter : WorkflowState → Prop
  | init : ReachableIter initWorkflowState
  | step {st : WorkflowState} (e : IterEvent) :
      ReachableIter st → ReachableIter (iterStep st e).1

/-! ## Data model of `create_intelligent_diff` (app_backend.py:890-978)

The function delegates the alignment to
`difflib.SequenceMatcher(None, old_words, new_words)` with `isjunk`
`None` and the default `autojunk=True`; the matcher is embedded below
from CPython's `difflib.py`. -/

/-- Python `str.split()` with no argument: split on runs of whitespace,
discarding empty tokens. -/
def pySplit (s : String) : List String :=
  (s.split (fun c => c.isWhitespace)).filter (fun w => w ≠ "")

/-- `b2j` before the autojunk purge: the ascending positions of `x` in
`b` (difflib `__chain_b`, the `setdefault`/`append` loop). -/
def b2jPositions (b : List String) (x : String) : List Nat :=
  (List.range b.length).filter (fun j => b.getD j "" == x)

/-- The autojunk popularity test (difflib `__chain_b`): with
`isjunk=None` and `autojunk=True`, an element is purged from `b2j` iff
`len(b) >= 200` and it occurs more than `len(b) // 100 + 1` times. -/
def isPopular (b : List String) (x : String) : Bool :=
  decide (200 ≤ b.length) &&
    decide (b.length / 100 + 1 < (b2jPositions b x).length)

/-- `b2j.get(x, [])` after the popular purge. -/
def b2jGet (b : List String) (x : String) : List Nat :=
  if isPopular b x then [] else b2jPositions b x

/-- Proof-support characterization (not part of the source): the length
of the maximal run of positions ending at `j` whose elements survive
the autojunk purge of `b2j`.  Used to analyse `find_longest_match` on
two identical sequences. -/
def nkrun (a : List String) : Nat → Nat
  | 0 => if 0 ∈ b2jGet a (a.getD 0 "") then 1 else 0
  | j + 1 => if (j + 1) ∈ b2jGet a (a.getD (j + 1) "") then nkrun a j + 1
      else 0

/-- The running best of `find_longest_match`. -/
structure FlmBest where
  besti : Nat
  bestj : Nat
  bestsize : Nat
deriving Repr, DecidableEq

/-- Proof-support conclusion package (not part of the source) for one
row of `find_longest_match`'s loop run on two identical sequences:
the best stays diagonal, grows monotonically, covers every kept run up
to and including the current row, and the new `j2len` map is bounded by
the kept runs. -/
structure RowOut (a : List String) (i : Nat) (best0 : FlmBest)
    (out : (Nat → Nat) × FlmBest) : Prop where
  diag : out.2.besti = out.2.bestj
  mono : best0.bestsize ≤ out.2.bestsize
  cov : ∀ r, r < i → nkrun a r ≤ out.2.bestsize
  selfVal : out.1 i = nkrun a i
  selfCov : nkrun a i ≤ out.2.bestsize
  mapRun : ∀ j', out.1 j' ≤ nkrun a j'
  mapRow : ∀ j', out.1 j' ≤ nkrun a i
  mapLe : ∀ j', out.1 j' ≤ out.2.bestsize

/-- The inner loop of `find_longest_match` over `b2j.get(a[i], [])` for
one row `i`: `j2len` is the previous row's map, `newj2len` this row's
accumulating map (total functions defaulting to 0, as `dict.get(_, 0)`
does); the `j < blo` test is `continue`, the `j >= bhi` test `break`.
`j2lenget(j-1, 0)` is 0 at `j = 0` because the key `-1` is never
stored. -/
def flmRow (blo bhi i : Nat) (j2len : Nat → Nat) :
    List Nat → (Nat → Nat) → FlmBest → ((Nat → Nat) × FlmBest)
  | [], newj2len, best => (newj2len, best)
  | j :: js, newj2len, best =>
      if j < blo then flmRow blo bhi i j2len js newj2len best
      else if bhi ≤ j then (newj2len, best)
      else
        let k := (if j = 0 then 0 else j2len (j - 1)) + 1
        let newj2len' := fun j' => if j' = j then k else newj2len j'
        let best' : FlmBest :=
          if best.bestsize < k then ⟨i + 1 - k, j + 1 - k, k⟩ else best
        flmRow blo bhi i j2len js newj2len' best'

/-- The outer loop of `find_longest_match` over `range(alo, ahi)`. -/
def flmRows (a b : List String) (blo bhi : Nat) :
    List Nat → (Nat → Nat) → FlmBest → FlmBest
  | [], _, best => best
  | i :: is, j2len, best =>
      let step := flmRow blo bhi i j2len (b2jGet b (a.getD i ""))
        (fun _ => 0) best
      flmRows a b blo bhi is step.1 step.2

/-- First extension loop of `find_longest_match`: grow the best match
downwards over equal non-junk elements. -/
def extendLo (a b : List String) (junk : String → Bool) (alo blo : Nat)
    (best : FlmBest) : FlmBest :=
  if h : alo < best.besti ∧ blo < best.bestj ∧
      junk (b.getD (best.bestj - 1) "") = false ∧
      a.getD (best.besti - 1) "" = b.getD (best.bestj - 1) "" then
    extendLo a b junk alo blo
      ⟨best.besti - 1, best.bestj - 1, best.bestsize + 1⟩
  else best
termination_by best.besti
decreasing_by
  show best.besti - 1 < best.besti
  omega

/-- Second extension loop: grow the best match upwards over equal
non-junk elements. -/
def extendHi (a b : List String) (junk : String → Bool) (ahi bhi : Nat)
    (best : FlmBest) : FlmBest :=
  if h : best.besti + best.bestsize < ahi ∧
      best.bestj + best.bestsize < bhi ∧
      junk (b.getD (best.bestj + best.bestsize) "") = false ∧
      a.getD (best.besti + best.bestsize) "" =
        b.getD (best.bestj + best.bestsize) "" then
    extendHi a b junk ahi bhi ⟨best.besti, best.bestj, best.bestsize + 1⟩
  else best
termination_by ahi - (best.besti + best.bestsize)
decreasing_by
  show ahi - (best.besti + (best.bestsize + 1)) <
    ahi - (best.besti + best.bestsize)
  omega

/-- Third extension loop: grow downwards over equal junk elements. -/
def extendLoJunk (a b : List String) (junk : String → Bool)
    (alo blo : Nat) (best : FlmBest) : FlmBest :=
  if h : alo < best.besti ∧ blo < best.bestj ∧
      junk (b.getD (best.bestj - 1) "") = true ∧
      a.getD (best.besti - 1) "" = b.getD (best.bestj - 1) "" then
    extendLoJunk a b junk alo blo
      ⟨best.besti - 1, best.bestj - 1, best.bestsize + 1⟩
  else best
termination_by best.besti
decreasing_by
  show best.besti - 1 < best.besti
  omega

/-- Fourth extension loop: grow upwards over equal junk elements. -/
def extendHiJunk (a b : List String) (junk : String → Bool)
    (ahi bhi : Nat) (best : FlmBest) : FlmBest :=
  if h : best.besti + best.bestsize < ahi ∧
      best.bestj + best.bestsize < bhi ∧
      junk (b.getD (best.bestj + best.bestsize) "") = true ∧
      a.getD (best.besti + best.bestsize) "" =
        b.getD (best.bestj + best.bestsize) "" then
    extendHiJunk a b junk ahi bhi
      ⟨best.besti, best.bestj, best.bestsize + 1⟩
  else best
termination_by ahi - (best.besti + best.bestsize)
decreasing_by
  show ahi - (best.besti + (best.bestsize + 1)) <
    ahi - (best.besti + best.bestsize)
  omega

/-- `SequenceMatcher.find_longest_match(alo, ahi, blo, bhi)`.  `junk`
is `self.bjunk.__contains__`; in `create_intelligent_diff` the matcher
is built with `isjunk=None`, so `bjunk` is empty and `junk` is the
constantly-false predicate (`noJunk` below). -/
def find_longest_match (a b : List String) (junk : String → Bool)
    (alo ahi blo bhi : Nat) : FlmBest :=
  let best0 := flmRows a b blo bhi (List.range' alo (ahi - alo))
    (fun _ => 0) ⟨alo, blo, 0⟩
  extendHiJunk a b junk ahi bhi
    (extendLoJunk a b junk alo blo
      (extendHi a b junk ahi bhi
        (extendLo a b junk alo blo best0)))

/-- Bounds invariant on the matcher's running best, used to justify
termination of the `get_matching_blocks` work queue: the docstring
bounds of `find_longest_match`, plus the fact that an empty best is
still the initial `(alo, blo, 0)`. -/
def FlmInv (alo ahi blo bhi : Nat) (best : FlmBest) : Prop :=
  alo ≤ best.besti ∧ blo ≤ best.bestj ∧
    (best.bestsize = 0 → best.besti = alo ∧ best.bestj = blo) ∧
    (best.bestsize ≠ 0 →
      best.besti + best.bestsize ≤ ahi ∧
        best.bestj + best.bestsize ≤ bhi)

theorem flmRow_inv {blo bhi i alo ahi : Nat} {j2len : Nat → Nat}
    (hrow : alo ≤ i ∧ i < ahi)
    (hmap : ∀ j', j2len j' ≤ i - alo ∧
      (j2len j' ≠ 0 → j2len j' + blo ≤ j' + 1)) :
    ∀ (js : List Nat) (newj2len : Nat → Nat) (best : FlmBest),
      (∀ j', newj2len j' ≤ i + 1 - alo ∧
        (newj2len j' ≠ 0 → newj2len j' + blo ≤ j' + 1)) →
      FlmInv alo ahi blo bhi best →
      (∀ j', (flmRow blo bhi i j2len js newj2len best).1 j' ≤
          i + 1 - alo ∧
        ((flmRow blo bhi i j2len js newj2len best).1 j' ≠ 0 →
          (flmRow blo bhi i j2len js newj2len best).1 j' + blo ≤ j' + 1)) ∧
      FlmInv alo ahi blo bhi (flmRow blo bhi i j2len js newj2len best).2 := by
  intro js
  induction js with
  | nil =>
      intro newj2len best hnew hbest
      exact ⟨hnew, hbest⟩
  | cons j js ih =>
      intro newj2len best hnew hbest
      by_cases hlo : j < blo
      · simp only [flmRow, if_pos hlo]
        exact ih newj2len best hnew hbest
      · by_cases hhi : bhi ≤ j
        · simp only [flmRow, if_neg hlo, if_pos hhi]
          exact ⟨hnew, hbest⟩
        · simp only [flmRow, if_neg hlo, if_neg hhi]
          have hite : (if j = 0 then 0 else j2len (j - 1)) ≤ i - alo ∧
              (if j = 0 then 0 else j2len (j - 1)) + blo ≤ j := by
            by_cases hj0 : j = 0
            · rw [if_pos hj0]
              omega
            · rw [if_neg hj0]
              have h1 := (hmap (j - 1)).1
              by_cases hz : j2len (j - 1) = 0
              · rw [hz]
                omega
              · have h2 := (hmap (j - 1)).2 hz
                omega
          refine ih _ _ ?_ ?_
          · intro j'
            constructor
            · by_cases hjj : j' = j
              · rw [if_pos hjj]
                omega
              · rw [if_neg hjj]
                exact (hnew j').1
            · by_cases hjj : j' = j
              · rw [if_pos hjj]
                intro _
                omega
              · rw [if_neg hjj]
                exact (hnew j').2
          · by_cases hbig : best.bestsize <
                (if j = 0 then 0 else j2len (j - 1)) + 1
            · rw [if_pos hbig]
              refine ⟨?_, ?_, ?_, fun _ => ⟨?_, ?_⟩⟩
              · show alo ≤ i + 1 - ((if j = 0 then 0 else j2len (j - 1)) + 1)
                omega
              · show blo ≤ j + 1 - ((if j = 0 then 0 else j2len (j - 1)) + 1)
                omega
              · intro hz
                exact absurd hz (by
                  show (if j = 0 then 0 else j2len (j - 1)) + 1 ≠ 0
                  omega)
              · show i + 1 - ((if j = 0 then 0 else j2len (j - 1)) + 1) +
                  ((if j = 0 then 0 else j2len (j - 1)) + 1) ≤ ahi
                omega
              · show j + 1 - ((if j = 0 then 0 else j2len (j - 1)) + 1) +
                  ((if j = 0 then 0 else j2len (j - 1)) + 1) ≤ bhi
                omega
            · rw [if_neg hbig]
              exact hbest

theorem flmRows_inv {a b : List String} {blo bhi alo ahi : Nat} :
    ∀ (cnt s : Nat) (j2len : Nat → Nat) (best : FlmBest),
      alo ≤ s → s + cnt ≤ ahi →
      (∀ j', j2len j' ≤ s - alo ∧
        (j2len j' ≠ 0 → j2len j' + blo ≤ j' + 1)) →
      FlmInv alo ahi blo bhi best →
      FlmInv alo ahi blo bhi
        (flmRows a b blo bhi (List.range' s cnt) j2len best) := by
  intro cnt
  induction cnt with
  | zero =>
      intro s j2len best _ _ _ hbest
      exact hbest
  | succ m ih =>
      intro s j2len best hs hcnt hmap hbest
      rw [List.range'_succ]
      simp only [flmRows]
      have hrow : alo ≤ s ∧ s < ahi := ⟨hs, by omega⟩
      have hstep := flmRow_inv hrow hmap (b2jGet b (a.getD s ""))
        (fun _ => 0) best
        (fun j' => ⟨Nat.zero_le _, fun h => absurd rfl h⟩) hbest
      refine ih (s + 1) _ _ (by omega) (by omega) ?_ hstep.2
      intro j'
      have := hstep.1 j'
      constructor
      · have h1 := this.1
        omega
      · exact this.2

theorem extendLo_inv {a b : List String} {junk : String → Bool}
    {alo blo ahi bhi : Nat} :
    ∀ best : FlmBest, FlmInv alo ahi blo bhi best →
      FlmInv alo ahi blo bhi (extendLo a b junk alo blo best) := by
  intro best
  induction best using extendLo.induct a b junk alo blo with
  | case1 best h ih =>
      intro hbest
      rw [extendLo, dif_pos h]
      refine ih ?_
      rcases hbest with ⟨h1, h2, h0, h3⟩
      rcases h with ⟨ha, hb, _, _⟩
      by_cases hz : best.bestsize = 0
      · rcases h0 hz with ⟨hza, hzb⟩
        exact absurd hza (by omega)
      · have := h3 hz
        refine ⟨?_, ?_, ?_, fun _ => ⟨?_, ?_⟩⟩
        · show alo ≤ best.besti - 1
          omega
        · show blo ≤ best.bestj - 1
          omega
        · show best.bestsize + 1 = 0 → _
          omega
        · show best.besti - 1 + (best.bestsize + 1) ≤ ahi
          omega
        · show best.bestj - 1 + (best.bestsize + 1) ≤ bhi
          omega
  | case2 best h =>
      intro hbest
      rw [extendLo, dif_neg h]
      exact hbest

theorem extendHi_inv {a b : List String} {junk : String → Bool}
    {alo blo ahi bhi : Nat} :
    ∀ best : FlmBest, FlmInv alo ahi blo bhi best →
      FlmInv alo ahi blo bhi (extendHi a b junk ahi bhi best) := by
  intro best
  induction best using extendHi.induct a b junk ahi bhi with
  | case1 best h ih =>
      intro hbest
      rw [extendHi, dif_pos h]
      refine ih ?_
      rcases hbest with ⟨h1, h2, _, _⟩
      rcases h with ⟨ha, hb, _, _⟩
      refine ⟨h1, h2, ?_, fun _ => ⟨?_, ?_⟩⟩
      · show best.bestsize + 1 = 0 → _
        omega
      · show best.besti + (best.bestsize + 1) ≤ ahi
        omega
      · show best.bestj + (best.bestsize + 1) ≤ bhi
        omega
  | case2 best h =>
      intro hbest
      rw [extendHi, dif_neg h]
      exact hbest

theorem extendLoJunk_inv {a b : List String} {junk : String → Bool}
    {alo blo ahi bhi : Nat} :
    ∀ best : FlmBest, FlmInv alo ahi blo bhi best →
      FlmInv alo ahi blo bhi (extendLoJunk a b junk alo blo best) := by
  intro best
  induction best using extendLoJunk.induct a b junk alo blo with
  | case1 best h ih =>
      intro hbest
      rw [extendLoJunk, dif_pos h]
      refine ih ?_
      rcases hbest with ⟨h1, h2, h0, h3⟩
      rcases h with ⟨ha, hb, _, _⟩
      by_cases hz : best.bestsize = 0
      · rcases h0 hz with ⟨hza, hzb⟩
        exact absurd hza (by omega)
      · have := h3 hz
        refine ⟨?_, ?_, ?_, fun _ => ⟨?_, ?_⟩⟩
        · show alo ≤ best.besti - 1
          omega
        · show blo ≤ best.bestj - 1
          omega
        · show best.bestsize + 1 = 0 → _
          omega
        · show best.besti - 1 + (best.bestsize + 1) ≤ ahi
          omega
        · show best.bestj - 1 + (best.bestsize + 1) ≤ bhi
          omega
  | case2 best h =>
      intro hbest
      rw [extendLoJunk, dif_neg h]
      exact hbest

theorem extendHiJunk_inv {a b : List String} {junk : String → Bool}
    {alo blo ahi bhi : Nat} :
    ∀ best : FlmBest, FlmInv alo ahi blo bhi best →
      FlmInv alo ahi blo bhi (extendHiJunk a b junk ahi bhi best) := by
  intro best
  induction best using extendHiJunk.induct a b junk ahi bhi with
  | case1 best h ih =>
      intro hbest
      rw [extendHiJunk, dif_pos h]
      refine ih ?_
      rcases hbest with ⟨h1, h2, _, _⟩
      rcases h with ⟨ha, hb, _, _⟩
      refine ⟨h1, h2, ?_, fun _ => ⟨?_, ?_⟩⟩
      · show best.bestsize + 1 = 0 → _
        omega
      · show best.besti + (best.bestsize + 1) ≤ ahi
        omega
      · show best.bestj + (best.bestsize + 1) ≤ bhi
        omega
  | case2 best h =>
      intro hbest
      rw [extendHiJunk, dif_neg h]
      exact hbest

/-- The bounds of difflib's docstring,
`alo <= i <= i+k <= ahi and blo <= j <= j+k <= bhi` (with the `i+k`
halves available once the match is non-empty), proved for the
embedding; they justify the `get_matching_blocks` termination. -/
theorem flm_bounds (a b : List String) (junk : String → Bool)
    (alo ahi blo bhi : Nat) :
    FlmInv alo ahi blo bhi (find_longest_match a b junk alo ahi blo bhi) := by
  unfold find_longest_match
  apply extendHiJunk_inv
  apply extendLoJunk_inv
  apply extendHi_inv
  apply extendLo_inv
  by_cases hle : alo ≤ ahi
  · apply flmRows_inv (ahi - alo) alo
    · exact le_refl alo
    · omega
    · intro j'
      exact ⟨Nat.zero_le _, fun h => absurd rfl h⟩
    · exact ⟨le_refl _, le_refl _, fun _ => ⟨rfl, rfl⟩, fun h => absurd rfl h⟩
  · have hz : ahi - alo = 0 := by omega
    rw [hz]
    exact ⟨le_refl _, le_refl _, fun _ => ⟨rfl, rfl⟩, fun h => absurd rfl h⟩

/-- Lexicographic order on block triples, the order
`matching_blocks.sort()` uses on Python tuples. -/
def blockLe (x y : Nat × Nat × Nat) : Bool :=
  decide (x.1 < y.1) ||
    (decide (x.1 = y.1) &&
      (decide (x.2.1 < y.2.1) ||
        (decide (x.2.1 = y.2.1) && decide (x.2.2 ≤ y.2.2))))

/-- Stable insertion for the ascending lexicographic block sort. -/
def insertBlock (x : Nat × Nat × Nat) :
    List (Nat × Nat × Nat) → List (Nat × Nat × Nat)
  | [] => [x]
  | y :: ys => if blockLe x y then x :: y :: ys else y :: insertBlock x ys

/-- `matching_blocks.sort()`: a stable ascending sort by `blockLe`. -/
def sortBlocks : List (Nat × Nat × Nat) → List (Nat × Nat × Nat)
  | [] => []
  | x :: xs => insertBlock x (sortBlocks xs)

/-- Total size of the work still in the queue, the termination measure
of the `while queue` loop of `get_matching_blocks`. -/
def queueMeasure : List (Nat × Nat × Nat × Nat) → Nat
  | [] => 0
  | (alo, ahi, blo, bhi) :: rest =>
      (ahi - alo) + (bhi - blo) + 1 + queueMeasure rest

/-- The `while queue` loop of `get_matching_blocks` (difflib): the
queue is kept in pop order (Python pops from the end of its list and
pushes the left window before the right one, so the right window sits
on top). -/
def gmbQueue (a b : List String) (junk : String → Bool) :
    List (Nat × Nat × Nat × Nat) → List (Nat × Nat × Nat) →
      List (Nat × Nat × Nat)
  | [], blocks => blocks
  | (alo, ahi, blo, bhi) :: rest, blocks =>
      let m := find_longest_match a b junk alo ahi blo bhi
      if m.bestsize = 0 then gmbQueue a b junk rest blocks
      else
        let rest1 := if alo < m.besti ∧ blo < m.bestj then
          (alo, m.besti, blo, m.bestj) :: rest else rest
        let rest2 := if m.besti + m.bestsize < ahi ∧
            m.bestj + m.bestsize < bhi then
          (m.besti + m.bestsize, ahi, m.bestj + m.bestsize, bhi) :: rest1
          else rest1
        gmbQueue a b junk rest2
          (blocks ++ [(m.besti, m.bestj, m.bestsize)])
termination_by queue _ => queueMeasure queue
decreasing_by
  · show queueMeasure rest < queueMeasure ((alo, ahi, blo, bhi) :: rest)
    show queueMeasure rest <
      (ahi - alo) + (bhi - blo) + 1 + queueMeasure rest
    omega
  · set m2 := find_longest_match a b junk alo ahi blo bhi
    have hb : FlmInv alo ahi blo bhi m2 :=
      flm_bounds a b junk alo ahi blo bhi
    rcases hb with ⟨h1, h2, _, h4⟩
    rcases h4 (by assumption) with ⟨hik, hjk⟩
    have hbs : m2.bestsize ≠ 0 := by assumption
    by_cases hr : m2.besti + m2.bestsize < ahi ∧
        m2.bestj + m2.bestsize < bhi
    · rw [dif_pos hr]
      by_cases hl : alo < m2.besti ∧ blo < m2.bestj
      · rw [dif_pos hl]
        simp only [queueMeasure]
        omega
      · rw [dif_neg hl]
        simp only [queueMeasure]
        omega
    · rw [dif_neg hr]
      by_cases hl : alo < m2.besti ∧ blo < m2.bestj
      · rw [dif_pos hl]
        simp only [queueMeasure]
        omega
      · rw [dif_neg hl]
        simp only [queueMeasure]
        omega

/-- The adjacent-block collapsing pass of `get_matching_blocks`,
threading the `i1, j1, k1` accumulator. -/
def mergeAdjacent : List (Nat × Nat × Nat) → Nat → Nat → Nat →
    List (Nat × Nat × Nat)
  | [], i1, j1, k1 => if k1 ≠ 0 then [(i1, j1, k1)] else []
  | (i2, j2, k2) :: rest, i1, j1, k1 =>
      if i1 + k1 = i2 ∧ j1 + k1 = j2 then mergeAdjacent rest i1 j1 (k1 + k2)
      else if k1 ≠ 0 then (i1, j1, k1) :: mergeAdjacent rest i2 j2 k2
      else mergeAdjacent rest i2 j2 k2

/-- `SequenceMatcher.get_matching_blocks()`. -/
def get_matching_blocks (a b : List String) (junk : String → Bool) :
    List (Nat × Nat × Nat) :=
  let blocks := gmbQueue a b junk [(0, a.length, 0, b.length)] []
  mergeAdjacent (sortBlocks blocks) 0 0 0 ++ [(a.length, b.length, 0)]

/-- Opcode tags of `SequenceMatcher.get_opcodes()`. -/
inductive Tag
  | equal
  | delete
  | insert
  | replace
deriving Repr, DecidableEq

structure Opcode where
  tag : Tag
  i1 : Nat
  i2 : Nat
  j1 : Nat
  j2 : Nat
deriving Repr, DecidableEq

/-- The loop of `get_opcodes()` over the matching blocks, carrying the
`i, j` cursor. -/
def opcodesLoop : List (Nat × Nat × Nat) → Nat → Nat → List Opcode
  | [], _, _ => []
  | (ai, bj, size) :: rest, i, j =>
      (if i < ai ∧ j < bj then [⟨Tag.replace, i, ai, j, bj⟩]
       else if i < ai then [⟨Tag.delete, i, ai, j, bj⟩]
       else if j < bj then [⟨Tag.insert, i, ai, j, bj⟩]
       else []) ++
      (if size ≠ 0 then [⟨Tag.equal, ai, ai + size, bj, bj + size⟩]
       else []) ++
      opcodesLoop rest (ai + size) (bj + size)

/-- `SequenceMatcher.get_opcodes()`. -/
def get_opcodes (a b : List String) (junk : String → Bool) :
    List Opcode :=
  opcodesLoop (get_matching_blocks a b junk) 0 0

/-- `matches` of `SequenceMatcher.ratio()`: the total size of the
matching blocks. -/
def matchesOf (a b : List String) (junk : String → Bool) : Nat :=
  ((get_matching_blocks a b junk).map (fun t => t.2.2)).sum

/-- `SequenceMatcher.ratio()` via difflib's `_calculate_ratio`, as an
exact rational. -/
def seqRatio (a b : List String) (junk : String → Bool) : ℚ :=
  if a.length + b.length ≠ 0 then
    2 * (matchesOf a b junk : ℚ) / ((a.length + b.length : Nat) : ℚ)
  else 1

/-- Python `round(q, 1)`: round half to even at one decimal place. -/
def pyRound1 (q : ℚ) : ℚ :=
  let t : ℚ := q * 10
  let fl : Int := ⌊t⌋
  let fr : ℚ := t - (fl : ℚ)
  let r : Int :=
    if fr < 1 / 2 then fl
    else if 1 / 2 < fr then fl + 1
    else if 2 ∣ fl then fl else fl + 1
  (r : ℚ) / 10

/-- `html.escape(s, quote=True)` (CPython `html/__init__.py`). -/
def htmlEscape (s : String) : String :=
  ((((s.replace "&" "&amp;").replace "<" "&lt;").replace ">"
    "&gt;").replace "\"" "&quot;").replace "'" "&#x27;"

/-- `' '.join(words[i1:i2])`. -/
def sliceJoin (ws : List String) (i1 i2 : Nat) : String :=
  String.intercalate " " ((ws.drop i1).take (i2 - i1))

/-- The pieces one opcode contributes to `inline_diff_html`
(app_backend.py:903-920). -/
def opcodeHtml (old_words new_words : List String) (op : Opcode) :
    List String :=
  match op.tag with
  | Tag.equal => [sliceJoin old_words op.i1 op.i2]
  | Tag.delete =>
      ["<span class=\"diff-deleted\">" ++
        htmlEscape (sliceJoin old_words op.i1 op.i2) ++ "</span>"]
  | Tag.insert =>
      ["<span class=\"diff-added\">" ++
        htmlEscape (sliceJoin new_words op.j1 op.j2) ++ "</span>"]
  | Tag.replace =>
      ["<span class=\"diff-deleted\">" ++
        htmlEscape (sliceJoin old_words op.i1 op.i2) ++ "</span>",
       "<span class=\"diff-added\">" ++
        htmlEscape (sliceJoin new_words op.j1 op.j2) ++ "</span>"]

/-- `re.sub(r'(\. )', r'\1\n\n', s)` (app_backend.py:927): every
`". "` becomes `". \n\n"`. -/
def addSentenceBreaks (s : String) : String :=
  s.replace ". " ". \n\n"

/-- Character-level core of `re.sub(r'\n\n+', '\n\n', s)`: every
maximal run of two or more newlines collapses to exactly two. -/
def collapseNLChars : List Char → List Char
  | [] => []
  | c :: cs =>
      if c = '\n' ∧ cs.head? = some '\n' then
        '\n' :: '\n' :: collapseNLChars (cs.dropWhile (fun d => d = '\n'))
      else c :: collapseNLChars cs
termination_by l => l.length
decreasing_by
  · show (cs.dropWhile (fun d => d = '\n')).length < (c :: cs).length
    have hd := (List.dropWhile_sublist (l := cs)
      (p := fun d => d = '\n')).length_le
    simp only [List.length_cons]
    omega
  · simp only [List.length_cons]
    omega

/-- `re.sub(r'\n\n+', '\n\n', s)` (app_backend.py:928). -/
def collapseNewlines (s : String) : String :=
  String.mk (collapseNLChars s.data)

/-- One `key_changes` entry per non-equal opcode
(app_backend.py:937-958): 50-char truncation with an ellipsis past 10
tokens for additions and deletions, 30 chars and 5 tokens per side for
modifications. -/
inductive KeyChange
  | deletion (text : String) (context : String)
  | addition (text : String) (context : String)
  | modification (old_text new_text : String) (context : String)
deriving Repr, DecidableEq

def keyChangeOf (old_words new_words : List String) (op : Opcode) :
    List KeyChange :=
  match op.tag with
  | Tag.equal => []
  | Tag.delete =>
      [KeyChange.deletion
        ((sliceJoin old_words op.i1 op.i2).take 50 ++
          (if 10 < op.i2 - op.i1 then "..." else ""))
        "Removed content"]
  | Tag.insert =>
      [KeyChange.addition
        ((sliceJoin new_words op.j1 op.j2).take 50 ++
          (if 10 < op.j2 - op.j1 then "..." else ""))
        "Added content"]
  | Tag.replace =>
      [KeyChange.modification
        ((sliceJoin old_words op.i1 op.i2).take 30 ++
          (if 5 < op.i2 - op.i1 then "..." else ""))
        ((sliceJoin new_words op.j1 op.j2).take 30 ++
          (if 5 < op.j2 - op.j1 then "..." else ""))
        "Modified content"]

/-- The dict returned by `create_intelligent_diff`. -/
structure DiffResult where
  inline_diff_html : String
  changes_count : Nat
  similarity_ratio : ℚ
  key_changes : List KeyChange
  original_prompt : String
  improved_prompt : String
deriving Repr, DecidableEq

/-- `self.bjunk.__contains__` with `isjunk=None`: the empty junk
predicate. -/
def noJunk : String → Bool := fun _ => false

/-- `create_intelligent_diff` (app_backend.py:890-967), success path.
Nothing in the body can raise, so the `except` branch
(`create_intelligent_diff_error` below) is unreachable; it is kept as
the degraded-result shape. -/
def create_intelligent_diff (old_prompt new_prompt : String) :
    DiffResult :=
  let old_words := pySplit old_prompt
  let new_words := pySplit new_prompt
  let ops := get_opcodes old_words new_words noJunk
  let inline_diff := String.intercalate " "
    ((ops.map (opcodeHtml old_words new_words)).flatten)
  { inline_diff_html := collapseNewlines (addSentenceBreaks inline_diff)
    changes_count := (ops.filter (fun op => op.tag ≠ Tag.equal)).length
    similarity_ratio := pyRound1 (seqRatio old_words new_words noJunk * 100)
    key_changes := ((ops.map (keyChangeOf old_words new_words)).flatten).take 5
    original_prompt := old_prompt
    improved_prompt := new_prompt }

/-- The `except` branch of `create_intelligent_diff`
(app_backend.py:969-978). -/
def create_intelligent_diff_error (old_prompt new_prompt : String) :
    DiffResult :=
  { inline_diff_html := "Error generating diff visualization"
    changes_count := 0
    similarity_ratio := 0
    key_changes := []
    original_prompt := old_prompt
    improved_prompt := new_prompt }

/-- The spec's description of a single `key_changes` entry for one
non-equal opcode: 50-character truncation with an ellipsis past 10
tokens for additions and deletions, 30 characters and a 5-token
threshold per side for modifications. Stated from the spec's words,
to be compared with `keyChangeOf`. -/
def keyChangeSpec (old_words new_words : List String) (op : Opcode) :
    KeyChange :=
  match op.tag with
  | Tag.delete =>
      KeyChange.deletion
        ((sliceJoin old_words op.i1 op.i2).take 50 ++
          (if 10 < op.i2 - op.i1 then "..." else ""))
        "Removed content"
  | Tag.insert =>
      KeyChange.addition
        ((sliceJoin new_words op.j1 op.j2).take 50 ++
          (if 10 < op.j2 - op.j1 then "..." else ""))
        "Added content"
  | _ =>
      KeyChange.modification
        ((sliceJoin old_words op.i1 op.i2).take 30 ++
          (if 5 < op.i2 - op.i1 then "..." else ""))
        ((sliceJoin new_words op.j1 op.j2).take 30 ++
          (if 5 < op.j2 - op.j1 then "..." else ""))
        "Modified content"

/-! ## Helper lemmas about the analyzer -/

theorem dictFind_mem {β : Type} {m : List (String × β)} {k : String}
    {v : β} (h : dictFind m k = some v) : (k, v) ∈ m := by
  induction m with
  | nil => simp [dictFind] at h
  | cons p rest ih =>
      by_cases hpk : (p.1 == k) = true
      · simp [dictFind, List.find?_cons, hpk] at h
        have : p = (k, v) := by
          cases p with
          | mk a b =>
              simp at hpk
              simp_all
        simp [this]
      · simp only [dictFind, List.find?_cons, hpk] at h
        exact List.mem_cons_of_mem _ (ih h)

theorem mem_dictSet {β : Type} {m : List (String × β)} {k : String}
    {v : β} {p : String × β} (h : p ∈ dictSet m k v) :
    p = (k, v) ∨ p ∈ m := by
  induction m with
  | nil => simpa [dictSet] using h
  | cons q rest ih =>
      by_cases hqk : (q.1 == k) = true
      · simp [dictSet, hqk] at h
        rcases h with h | h
        · exact Or.inl h
        · exact Or.inr (List.mem_cons_of_mem _ h)
      · simp [dictSet, hqk] at h
        rcases h with h | h
        · exact Or.inr (by simp [h])
        · rcases ih h with h' | h'
          · exact Or.inl h'
          · exact Or.inr (List.mem_cons_of_mem _ h')

theorem sumCounts_dictSet_inc (m : List (String × PatternData))
    (k : String) (ex : List PatternExample) :
    sumCounts (dictSet m k
      ⟨((dictFind m k).getD ⟨0, []⟩).count + 1, ex⟩) =
    sumCounts m + 1 := by
  induction m with
  | nil => simp [dictSet, dictFind, sumCounts]
  | cons q rest ih =>
      by_cases hqk : (q.1 == k) = true
      · simp [dictSet, hqk, dictFind, List.find?_cons, sumCounts]
        omega
      · simp only [dictSet, hqk, if_false, Bool.false_eq_true]
        have hfind : dictFind (q :: rest) k = dictFind rest k := by
          simp [dictFind, List.find?_cons, hqk]
        rw [hfind] at *
        simp [sumCounts] at ih ⊢
        omega

theorem examples_len_dictSet {m : List (String × PatternData)}
    (hm : ∀ p ∈ m, p.2.examples.length = p.2.count)
    (k : String) (e : PatternExample) :
    ∀ p ∈ dictSet m k
      ⟨((dictFind m k).getD ⟨0, []⟩).count + 1,
       ((dictFind m k).getD ⟨0, []⟩).examples ++ [e]⟩,
      p.2.examples.length = p.2.count := by
  intro p hp
  rcases mem_dictSet hp with h | h
  · subst h
    cases hfind : dictFind m k with
    | none => simp [hfind]
    | some v =>
        have := hm _ (dictFind_mem hfind)
        simp [hfind]
        simpa using this
  · exact hm _ h

theorem keysNodup_dictSet {β : Type} {m : List (String × β)}
    (hm : (m.map Prod.fst).Nodup) (k : String) (v : β) :
    ((dictSet m k v).map Prod.fst).Nodup := by
  induction m with
  | nil => simp [dictSet]
  | cons q rest ih =>
      by_cases hqk : (q.1 == k) = true
      · have hk : q.1 = k := by simpa using hqk
        simp only [dictSet, hqk, if_true]
        simp only [List.map_cons, List.nodup_cons] at hm ⊢
        exact ⟨by rw [← hk]; exact hm.1, hm.2⟩
      · simp only [dictSet, hqk, if_false, Bool.false_eq_true,
          List.map_cons, List.nodup_cons] at hm ⊢
        refine ⟨?_, ih hm.2⟩
        intro hmem
        simp only [List.mem_map] at hmem
        rcases hmem with ⟨p, hp, hq1⟩
        rcases mem_dictSet hp with h' | h'
        · subst h'
          have hqk' : q.1 = k := hq1.symm
          exact hqk (by simp [hqk'])
        · exact hm.1 (List.mem_map.mpr ⟨p, h', hq1⟩)

theorem analyzeStep_ok {res : List ResultEntry} {acc acc' : AnalyzerAcc}
    {c : Correction} (h : analyzeStep res acc c = Except.ok acc') :
    ∃ rt, responseSnippet res c.index = Except.ok rt ∧
      acc'.patterns = dictSet acc.patterns (patternKey c)
        ⟨((dictFind acc.patterns (patternKey c)).getD ⟨0, []⟩).count + 1,
         ((dictFind acc.patterns (patternKey c)).getD ⟨0, []⟩).examples ++
           [⟨rt, c.feedback, c.index⟩]⟩ ∧
      acc'.specific = acc.specific ++
        [⟨c.original_classification, c.new_classification, rt, c.feedback,
          c.index⟩] := by
  unfold analyzeStep at h
  cases hrt : responseSnippet res c.index with
  | error e =>
      rw [hrt] at h
      simp [Bind.bind, Except.bind] at h
  | ok rt =>
      rw [hrt] at h
      simp only [Bind.bind, Except.bind, pure, Except.pure,
        Except.ok.injEq] at h
      exact ⟨rt, rfl, by rw [← h], by rw [← h]⟩

theorem analyzeStep_error {res : List ResultEntry} {c : Correction}
    (hc : c.index < -(res.length : Int)) (acc : AnalyzerAcc) :
    analyzeStep res acc c = Except.error "list index out of range" := by
  have h1 : c.index < (res.length : Int) := by
    have : (0 : Int) ≤ (res.length : Int) := Int.natCast_nonneg _
    omega
  have h0 : ¬ (0 ≤ c.index) := by
    have : (0 : Int) ≤ (res.length : Int) := Int.natCast_nonneg _
    omega
  have hsnip : responseSnippet res c.index =
      Except.error "list index out of range" := by
    unfold responseSnippet pyListGet
    simp only [h1, if_true, h0, if_false]
    have : ¬ (0 ≤ (res.length : Int) + c.index) := by omega
    simp [this]
  unfold analyzeStep
  rw [hsnip]
  rfl

theorem responseSnippet_ok {res : List ResultEntry} {i : Int}
    (hi : -(res.length : Int) ≤ i) :
    ∃ rt, responseSnippet res i = Except.ok rt := by
  unfold responseSnippet
  by_cases h1 : i < (res.length : Int)
  · simp only [h1, if_true]
    unfold pyListGet
    by_cases h0 : 0 ≤ i
    · have hlt : i.toNat < res.length := by omega
      simp only [h0, if_true]
      cases hg : res.get? i.toNat with
      | none => exact absurd (List.get?_eq_none.mp hg) (by omega)
      | some r => exact ⟨_, by simp [hg, Bind.bind, Except.bind]; rfl⟩
    · have hj : 0 ≤ (res.length : Int) + i := by omega
      have hlt : ((res.length : Int) + i).toNat < res.length := by omega
      simp only [h0, if_false, hj, if_true]
      cases hg : res.get? ((res.length : Int) + i).toNat with
      | none => exact absurd (List.get?_eq_none.mp hg) (by omega)
      | some r => exact ⟨_, by simp [hg, Bind.bind, Except.bind]; rfl⟩
  · exact ⟨"", by simp only [h1, if_false]; rfl⟩

theorem foldlM_analyze_ok_inv {res : List ResultEntry} :
    ∀ (l : List Correction) (acc acc' : AnalyzerAcc),
      l.foldlM (analyzeStep res) acc = Except.ok acc' →
      sumCounts acc'.patterns = sumCounts acc.patterns + l.length ∧
      ((∀ p ∈ acc.patterns, p.2.examples.length = p.2.count) →
        ∀ p ∈ acc'.patterns, p.2.examples.length = p.2.count) ∧
      ((acc.patterns.map Prod.fst).Nodup →
        (acc'.patterns.map Prod.fst).Nodup) := by
  intro l
  induction l with
  | nil =>
      intro acc acc' h
      simp only [List.foldlM_nil, pure, Except.pure, Except.ok.injEq] at h
      subst h
      exact ⟨by simp, fun h => h, fun h => h⟩
  | cons c tl ih =>
      intro acc acc' h
      rw [List.foldlM_cons] at h
      cases hstep : analyzeStep res acc c with
      | error e =>
          rw [hstep] at h
          simp [Bind.bind, Except.bind] at h
      | ok acc1 =>
          rw [hstep] at h
          simp only [Bind.bind, Except.bind] at h
          obtain ⟨rt, _, hpat, _⟩ := analyzeStep_ok hstep
          obtain ⟨ihsum, ihlen, ihnd⟩ := ih acc1 acc' h
          refine ⟨?_, ?_, ?_⟩
          · rw [ihsum, hpat, sumCounts_dictSet_inc]
            simp
            omega
          · intro hlen
            exact ihlen (by rw [hpat]; exact examples_len_dictSet hlen _ _)
          · intro hnd
            exact ihnd (by rw [hpat]; exact keysNodup_dictSet hnd _ _)

theorem foldlM_analyze_ok {res : List ResultEntry} :
    ∀ (l : List Correction),
      (∀ c ∈ l, -(res.length : Int) ≤ c.index) →
      ∀ acc, ∃ acc', l.foldlM (analyzeStep res) acc = Except.ok acc' := by
  intro l
  induction l with
  | nil => exact fun _ acc => ⟨acc, rfl⟩
  | cons c tl ih =>
      intro hb acc
      obtain ⟨rt, hrt⟩ := responseSnippet_ok (hb c (by simp))
      have hstep : ∃ acc1, analyzeStep res acc c = Except.ok acc1 := by
        unfold analyzeStep
        rw [hrt]
        exact ⟨_, rfl⟩
      obtain ⟨acc1, hacc1⟩ := hstep
      obtain ⟨acc', hacc'⟩ := ih (fun c hc => hb c (by simp [hc])) acc1
      refine ⟨acc', ?_⟩
      rw [List.foldlM_cons, hacc1]
      simpa [Bind.bind, Except.bind] using hacc'

theorem foldlM_analyze_error {res : List ResultEntry} :
    ∀ (l : List Correction) (c : Correction), c ∈ l →
      c.index < -(res.length : Int) →
      ∀ acc, ∃ e, l.foldlM (analyzeStep res) acc = Except.error e := by
  intro l
  induction l with
  | nil => intro c hc; simp at hc
  | cons a tl ih =>
      intro c hc hidx acc
      rcases List.mem_cons.mp hc with rfl | hc'
      · refine ⟨"list index out of range", ?_⟩
        rw [List.foldlM_cons, analyzeStep_error hidx]
        rfl
      · cases hstep : analyzeStep res acc a with
        | error e => exact ⟨e, by rw [List.foldlM_cons, hstep]; rfl⟩
        | ok acc1 =>
            obtain ⟨e, he⟩ := ih c hc' hidx acc1
            refine ⟨e, ?_⟩
            rw [List.foldlM_cons, hstep]
            simpa [Bind.bind, Except.bind] using he

/-- Unfolding of a successful `analyze_feedback_patterns` run. -/
theorem analyze_some_elim {fd : FeedbackData} {res : List ResultEntry}
    {a : FeedbackAnalysis}
    (h : analyze_feedback_patterns (some fd) res = some a) :
    ∃ acc, fd.feedback.foldlM (analyzeStep res) ⟨[], [], []⟩ =
        Except.ok acc ∧
      a = { total_corrections := fd.feedback.length
            misclassification_patterns := acc.patterns
            category_confusion_matrix := acc.matrix
            common_errors := commonErrorsOf acc.patterns
            specific_examples := acc.specific } := by
  unfold analyze_feedback_patterns analyzeBody at h
  by_cases hfd : fd.feedback = []
  · simp [hfd] at h
  · simp only [hfd, if_false] at h
    cases hfold : fd.feedback.foldlM (analyzeStep res)
        (⟨[], [], []⟩ : AnalyzerAcc) with
    | error e => rw [hfold] at h; simp [Bind.bind, Except.bind] at h
    | ok acc =>
        rw [hfold] at h
        simp only [Bind.bind, Except.bind, pure, Except.pure,
          Option.some.injEq] at h
        exact ⟨acc, rfl, h.symm⟩

theorem analyzeBody_empty {fd : FeedbackData} (res : List ResultEntry)
    (hfd : fd.feedback = []) :
    analyzeBody (some fd) res = Except.ok none := by
  show (if fd.feedback = [] then Except.ok none else _) = _
  rw [if_pos hfd]

theorem analyzeBody_error_of_fold {fd : FeedbackData}
    {res : List ResultEntry} {e : String} (hne : fd.feedback ≠ [])
    (he : fd.feedback.foldlM (analyzeStep res) ⟨[], [], []⟩ =
      Except.error e) :
    analyzeBody (some fd) res = Except.error e := by
  show (if fd.feedback = [] then Except.ok none else _) = _
  rw [if_neg hne, he]
  rfl

/-! ## Lemmas about the stable descending sort of `common_errors` -/

theorem mem_insertCommonDesc {x y : CommonError} {l : List CommonError} :
    y ∈ insertCommonDesc x l ↔ y = x ∨ y ∈ l := by
  induction l with
  | nil => simp [insertCommonDesc]
  | cons z zs ih =>
      by_cases hz : z.count ≤ x.count
      · simp [insertCommonDesc, hz]
      · simp [insertCommonDesc, hz, ih]
        tauto

theorem mem_sortCommonDesc {y : CommonError} {l : List CommonError} :
    y ∈ sortCommonDesc l ↔ y ∈ l := by
  induction l with
  | nil => simp [sortCommonDesc]
  | cons x xs ih =>
      simp [sortCommonDesc, mem_insertCommonDesc, ih]

theorem pairwise_insertCommonDesc {x : CommonError} {l : List CommonError}
    (h : l.Pairwise (fun a b => b.count ≤ a.count)) :
    (insertCommonDesc x l).Pairwise (fun a b => b.count ≤ a.count) := by
  induction l with
  | nil => simp [insertCommonDesc]
  | cons z zs ih =>
      rcases List.pairwise_cons.mp h with ⟨hz, hzs⟩
      by_cases hc : z.count ≤ x.count
      · simp only [insertCommonDesc, hc, if_true]
        refine List.pairwise_cons.mpr ⟨?_, h⟩
        intro b hb
        rcases List.mem_cons.mp hb with rfl | hb'
        · exact hc
        · exact le_trans (hz b hb') hc
      · simp only [insertCommonDesc, hc, if_false]
        refine List.pairwise_cons.mpr ⟨?_, ih hzs⟩
        intro b hb
        rcases mem_insertCommonDesc.mp hb with rfl | hb'
        · omega
        · exact hz b hb'

theorem sortCommonDesc_pairwise (l : List CommonError) :
    (sortCommonDesc l).Pairwise (fun a b => b.count ≤ a.count) := by
  induction l with
  | nil => simp [sortCommonDesc]
  | cons x xs ih => exact pairwise_insertCommonDesc ih

theorem filter_insertCommonDesc (n : Nat) (x : CommonError)
    (l : List CommonError) :
    (insertCommonDesc x l).filter (fun e => e.count == n) =
      if x.count = n then x :: l.filter (fun e => e.count == n)
      else l.filter (fun e => e.count == n) := by
  induction l with
  | nil =>
      by_cases hx : x.count = n <;> simp [insertCommonDesc, hx]
  | cons z zs ih =>
      by_cases hc : z.count ≤ x.count
      · simp only [insertCommonDesc, if_pos hc, List.filter_cons]
        by_cases hx : x.count = n
        · simp [hx]
        · simp [hx]
      · simp only [insertCommonDesc, if_neg hc, List.filter_cons]
        rw [ih]
        by_cases hx : x.count = n
        · have hz : ¬ (z.count = n) := by omega
          simp [hx, hz]
        · simp [hx]

theorem filter_sortCommonDesc (n : Nat) (l : List CommonError) :
    (sortCommonDesc l).filter (fun e => e.count == n) =
      l.filter (fun e => e.count == n) := by
  induction l with
  | nil => rfl
  | cons x xs ih =>
      by_cases hx : x.count = n
      · simp [sortCommonDesc, filter_insertCommonDesc, hx, ih]
      · simp [sortCommonDesc, filter_insertCommonDesc, hx, ih]

/-! ## Claims about the feedback analyzer -/

/-- C1 (counterexample): a non-empty correction batch for which
`analyze_feedback_patterns` returns no analysis at all — the correction
carries index `-1` against an empty `results` list, so the Python
`results[index]` access raises `IndexError` and the `except` handler
returns `None` instead of an analysis. -/
theorem claim_C1_cex :
    ([⟨"A", "B", "fb", -1⟩] : List Correction) ≠ [] ∧
    analyze_feedback_patterns (some ⟨[⟨"A", "B", "fb", -1⟩]⟩) [] = none := by
  exact ⟨by simp, rfl⟩

/-- C1 (amended): for every non-empty correction batch in which every
correction's index is at least `-len(results)` (so that the Python list
access cannot raise), `analyze_feedback_patterns` returns an analysis
whose pattern counts sum to `total_corrections`, which is the number of
corrections. -/
theorem claim_C1 (fd : FeedbackData) (res : List ResultEntry)
    (hne : fd.feedback ≠ [])
    (hidx : ∀ c ∈ fd.feedback, -(res.length : Int) ≤ c.index) :
    ∃ a, analyze_feedback_patterns (some fd) res = some a ∧
      sumCounts a.misclassification_patterns = a.total_corrections ∧
      a.total_corrections = fd.feedback.length := by
  obtain ⟨acc, hacc⟩ := foldlM_analyze_ok fd.feedback hidx ⟨[], [], []⟩
  have hsum := (foldlM_analyze_ok_inv fd.feedback _ _ hacc).1
  refine ⟨{ total_corrections := fd.feedback.length
            misclassification_patterns := acc.patterns
            category_confusion_matrix := acc.matrix
            common_errors := commonErrorsOf acc.patterns
            specific_examples := acc.specific }, ?_, ?_, rfl⟩
  · have hbody : analyzeBody (some fd) res = Except.ok (some
        { total_corrections := fd.feedback.length
          misclassification_patterns := acc.patterns
          category_confusion_matrix := acc.matrix
          common_errors := commonErrorsOf acc.patterns
          specific_examples := acc.specific }) := by
      show (if fd.feedback = [] then Except.ok none else _) = _
      rw [if_neg hne, hacc]
      rfl
    unfold analyze_feedback_patterns
    rw [hbody]
  · simpa [sumCounts] using hsum

/-- C1 (witness): the amended claim applied to a concrete two-correction
batch. -/
theorem claim_C1_wit :
    ∃ a, analyze_feedback_patterns
        (some ⟨[⟨"Low", "High", "note", 0⟩, ⟨"Low", "High", "", 1⟩]⟩)
        [⟨"r1"⟩, ⟨"r2"⟩] = some a ∧
      sumCounts a.misclassification_patterns = a.total_corrections ∧
      a.total_corrections =
        ([⟨"Low", "High", "note", 0⟩, ⟨"Low", "High", "", 1⟩] :
          List Correction).length :=
  claim_C1 ⟨[⟨"Low", "High", "note", 0⟩, ⟨"Low", "High", "", 1⟩]⟩
    [⟨"r1"⟩, ⟨"r2"⟩] (by simp) (by decide)

/-- C2: whenever `analyze_feedback_patterns` returns an analysis, its
`common_errors` are exactly the misclassification patterns with count
greater than 1 (each with at most 2 examples), sorted by count
descending, ties kept in first-encounter (dictionary) order — expressed
by the count-indexed filter equations — and count-1 patterns are
excluded from `common_errors` while remaining in
`misclassification_patterns`. -/
theorem claim_C2 (fd : FeedbackData) (res : List ResultEntry)
    (a : FeedbackAnalysis)
    (h : analyze_feedback_patterns (some fd) res = some a) :
    (∀ e ∈ a.common_errors, 1 < e.count) ∧
    a.common_errors.Pairwise (fun x y => y.count ≤ x.count) ∧
    (∀ n : Nat, a.common_errors.filter (fun e => e.count == n) =
      (a.misclassification_patterns.filter
        (fun p => (p.2.count == n) && decide (1 < p.2.count))).map
        (fun p => ⟨p.1, p.2.count, p.2.examples.take 2⟩)) ∧
    (∀ k d, (k, d) ∈ a.misclassification_patterns → d.count = 1 →
      ∀ e ∈ a.common_errors, e.pattern ≠ k) := by
  obtain ⟨acc, hacc, rfl⟩ := analyze_some_elim h
  have hnd : (acc.patterns.map Prod.fst).Nodup :=
    (foldlM_analyze_ok_inv _ _ _ hacc).2.2 (by simp)
  have hmem : ∀ e ∈ commonErrorsOf acc.patterns,
      ∃ p ∈ acc.patterns, 1 < p.2.count ∧
        e = ⟨p.1, p.2.count, p.2.examples.take 2⟩ := by
    intro e he
    have he' := mem_sortCommonDesc.mp he
    simp only [List.mem_map, List.mem_filter] at he'
    rcases he' with ⟨p, ⟨hp, hgt⟩, rfl⟩
    exact ⟨p, hp, by simpa using hgt, rfl⟩
  refine ⟨?_, sortCommonDesc_pairwise _, ?_, ?_⟩
  · intro e he
    obtain ⟨p, _, hgt, rfl⟩ := hmem e he
    exact hgt
  · intro n
    show (sortCommonDesc _).filter _ = _
    rw [filter_sortCommonDesc]
    rw [List.filter_map]
    rw [List.filter_filter]
    rfl
  · intro k d hkd hd1 e he hek
    obtain ⟨p, hp, hgt, rfl⟩ := hmem e he
    have hk : p.1 = k := hek
    have hpd : p = (k, d) :=
      List.inj_on_of_nodup_map hnd hp hkd (by simpa using hk)
    have hcnt : p.2.count = d.count := by rw [hpd]
    omega

/-- C2 (witness): the claim applied to a concrete batch in which one
pattern occurs twice. -/
theorem claim_C2_wit :
    (∀ e ∈ (FeedbackAnalysis.mk 2
        [("A → B", ⟨2, [⟨"", "x", 0⟩, ⟨"", "y", 0⟩]⟩)]
        [("A", [("B", 2)])]
        [⟨"A → B", 2, [⟨"", "x", 0⟩, ⟨"", "y", 0⟩]⟩]
        [⟨"A", "B", "", "x", 0⟩, ⟨"A", "B", "", "y", 0⟩]).common_errors,
      1 < e.count) ∧
    (FeedbackAnalysis.mk 2
        [("A → B", ⟨2, [⟨"", "x", 0⟩, ⟨"", "y", 0⟩]⟩)]
        [("A", [("B", 2)])]
        [⟨"A → B", 2, [⟨"", "x", 0⟩, ⟨"", "y", 0⟩]⟩]
        [⟨"A", "B", "", "x", 0⟩, ⟨"A", "B", "", "y", 0⟩]).common_errors.Pairwise
      (fun x y => y.count ≤ x.count) ∧
    (∀ n : Nat, (FeedbackAnalysis.mk 2
        [("A → B", ⟨2, [⟨"", "x", 0⟩, ⟨"", "y", 0⟩]⟩)]
        [("A", [("B", 2)])]
        [⟨"A → B", 2, [⟨"", "x", 0⟩, ⟨"", "y", 0⟩]⟩]
        [⟨"A", "B", "", "x", 0⟩, ⟨"A", "B", "", "y", 0⟩]).common_errors.filter
          (fun e => e.count == n) =
      ((FeedbackAnalysis.mk 2
        [("A → B", ⟨2, [⟨"", "x", 0⟩, ⟨"", "y", 0⟩]⟩)]
        [("A", [("B", 2)])]
        [⟨"A → B", 2, [⟨"", "x", 0⟩, ⟨"", "y", 0⟩]⟩]
        [⟨"A", "B", "", "x", 0⟩, ⟨"A", "B", "", "y", 0⟩]).misclassification_patterns.filter
        (fun p => (p.2.count == n) && decide (1 < p.2.count))).map
        (fun p => ⟨p.1, p.2.count, p.2.examples.take 2⟩)) ∧
    (∀ k d, (k, d) ∈ (FeedbackAnalysis.mk 2
        [("A → B", ⟨2, [⟨"", "x", 0⟩, ⟨"", "y", 0⟩]⟩)]
        [("A", [("B", 2)])]
        [⟨"A → B", 2, [⟨"", "x", 0⟩, ⟨"", "y", 0⟩]⟩]
        [⟨"A", "B", "", "x", 0⟩, ⟨"A", "B", "", "y", 0⟩]).misclassification_patterns →
      d.count = 1 →
      ∀ e ∈ (FeedbackAnalysis.mk 2
        [("A → B", ⟨2, [⟨"", "x", 0⟩, ⟨"", "y", 0⟩]⟩)]
        [("A", [("B", 2)])]
        [⟨"A → B", 2, [⟨"", "x", 0⟩, ⟨"", "y", 0⟩]⟩]
        [⟨"A", "B", "", "x", 0⟩, ⟨"A", "B", "", "y", 0⟩]).common_errors,
        e.pattern ≠ k) :=
  claim_C2 ⟨[⟨"A", "B", "x", 0⟩, ⟨"A", "B", "y", 0⟩]⟩ []
    (FeedbackAnalysis.mk 2
      [("A → B", ⟨2, [⟨"", "x", 0⟩, ⟨"", "y", 0⟩]⟩)]
      [("A", [("B", 2)])]
      [⟨"A → B", 2, [⟨"", "x", 0⟩, ⟨"", "y", 0⟩]⟩]
      [⟨"A", "B", "", "x", 0⟩, ⟨"A", "B", "", "y", 0⟩]) (by rfl)

/-- C7 (counterexample): three identical corrections make the pattern in
`misclassification_patterns` store 3 example snippets — the cap of 2 is
applied only when `common_errors` is built (app_backend.py:791), not
during accumulation. -/
theorem claim_C7_cex :
    (analyze_feedback_patterns
        (some ⟨[⟨"A", "B", "x", 0⟩, ⟨"A", "B", "y", 0⟩, ⟨"A", "B", "z", 0⟩]⟩)
        []).map
      (fun a => a.misclassification_patterns.map
        (fun p => p.2.examples.length)) = some [3] := by rfl

/-- C7 (amended): each pattern of `misclassification_patterns` stores
one example per occurrence (examples grow with the batch, length =
count); the ≤ 2 cap applies only to the examples carried by
`common_errors` entries. -/
theorem claim_C7 (fd : FeedbackData) (res : List ResultEntry)
    (a : FeedbackAnalysis)
    (h : analyze_feedback_patterns (some fd) res = some a) :
    (∀ p ∈ a.misclassification_patterns,
      p.2.examples.length = p.2.count) ∧
    (∀ e ∈ a.common_errors, e.examples.length ≤ 2) := by
  obtain ⟨acc, hacc, rfl⟩ := analyze_some_elim h
  constructor
  · exact (foldlM_analyze_ok_inv _ _ _ hacc).2.1 (by simp)
  · intro e he
    have he' := mem_sortCommonDesc.mp he
    simp only [List.mem_map, List.mem_filter] at he'
    rcases he' with ⟨p, _, rfl⟩
    exact List.length_take_le 2 p.2.examples

/-- C7 (witness): the amended claim applied to a concrete
single-correction batch. -/
theorem claim_C7_wit :
    (∀ p ∈ (FeedbackAnalysis.mk 1 [("A → B", ⟨1, [⟨"", "f", 0⟩]⟩)]
        [("A", [("B", 1)])] [] [⟨"A", "B", "", "f", 0⟩]).misclassification_patterns,
      p.2.examples.length = p.2.count) ∧
    (∀ e ∈ (FeedbackAnalysis.mk 1 [("A → B", ⟨1, [⟨"", "f", 0⟩]⟩)]
        [("A", [("B", 1)])] [] [⟨"A", "B", "", "f", 0⟩]).common_errors,
      e.examples.length ≤ 2) :=
  claim_C7 ⟨[⟨"A", "B", "f", 0⟩]⟩ []
    (FeedbackAnalysis.mk 1 [("A → B", ⟨1, [⟨"", "f", 0⟩]⟩)]
      [("A", [("B", 1)])] [] [⟨"A", "B", "", "f", 0⟩]) (by rfl)

/-- C8 (counterexample): a correction with index `-1` lies outside the
claimed valid range `0 ≤ index < len(results)`, yet the analyzer
resolves a snippet for it (`"X..."`, from the last element, by Python
negative indexing) instead of omitting it. -/
theorem claim_C8_cex :
    ¬ (0 ≤ (-1 : Int) ∧
        (-1 : Int) < (([⟨"X"⟩] : List ResultEntry).length : Int)) ∧
    (analyze_feedback_patterns (some ⟨[⟨"A", "B", "fb", -1⟩]⟩)
        [⟨"X"⟩]).map
      (fun a => a.specific_examples.map (fun s => s.response_text)) =
      some ["X..."] := by
  exact ⟨by decide, rfl⟩

/-- C8 (amended): the snippet resolution of app_backend.py:750-752 works
per index as follows: indices at or above `len(results)` yield the empty
snippet; indices in `[0, len)` yield the first 100 characters of the
response text with `'...'` appended; indices in `[-len, 0)` resolve from
the end of the list (Python negative indexing), again with the 100-char
truncation and ellipsis; and an index below `-len` raises `IndexError`,
upon which the analyzer as a whole returns `None` (so it still does not
crash). -/
theorem claim_C8 (res : List ResultEntry) (i : Int) :
    ((res.length : Int) ≤ i → responseSnippet res i = Except.ok "") ∧
    (0 ≤ i → ∀ hlt : i.toNat < res.length,
      responseSnippet res i =
        Except.ok ((res.get ⟨i.toNat, hlt⟩).response_text.take 100 ++
          "...")) ∧
    (i < 0 → -(res.length : Int) ≤ i →
      ∀ hlt : ((res.length : Int) + i).toNat < res.length,
      responseSnippet res i =
        Except.ok ((res.get ⟨((res.length : Int) + i).toNat,
          hlt⟩).response_text.take 100 ++ "...")) ∧
    (i < -(res.length : Int) →
      responseSnippet res i = Except.error "list index out of range") ∧
    (∀ (fd : FeedbackData) (c : Correction), c ∈ fd.feedback →
      c.index < -(res.length : Int) →
      analyze_feedback_patterns (some fd) res = none) := by
  refine ⟨?_, ?_, ?_, ?_, ?_⟩
  · intro hge
    unfold responseSnippet
    rw [if_neg (by omega)]
    rfl
  · intro h0 hlt
    have h1 : i < (res.length : Int) := by omega
    unfold responseSnippet pyListGet
    simp only [h1, if_true, h0, if_true]
    rw [List.get?_eq_get hlt]
    rfl
  · intro hneg hge hlt
    have hc : (0 : Int) ≤ (res.length : Int) := Int.natCast_nonneg _
    have h1 : i < (res.length : Int) := by omega
    have h0 : ¬ (0 ≤ i) := by omega
    have hj : 0 ≤ (res.length : Int) + i := by omega
    unfold responseSnippet pyListGet
    simp only [h1, if_true, h0, if_false, hj, if_true]
    rw [List.get?_eq_get hlt]
    rfl
  · intro hlt
    have hc : (0 : Int) ≤ (res.length : Int) := Int.natCast_nonneg _
    have h1 : i < (res.length : Int) := by omega
    have h0 : ¬ (0 ≤ i) := by omega
    have hj : ¬ (0 ≤ (res.length : Int) + i) := by omega
    unfold responseSnippet pyListGet
    simp only [h1, if_true, h0, if_false, hj]
    rfl
  · intro fd c hc hidx
    obtain ⟨e, he⟩ := foldlM_analyze_error fd.feedback c hc hidx
      ⟨[], [], []⟩
    have hne : fd.feedback ≠ [] := by
      intro hnil
      rw [hnil] at hc
      simp at hc
    unfold analyze_feedback_patterns
    rw [analyzeBody_error_of_fold hne he]

/-- C8 (witness): the amended claim applied at concrete inputs covering
the in-range, past-the-end and negative-index cases. -/
theorem claim_C8_wit :
    responseSnippet [⟨"hello"⟩] 0 =
      Except.ok ("hello".take 100 ++ "...") ∧
    responseSnippet [⟨"hello"⟩] 3 = Except.ok "" ∧
    responseSnippet [⟨"hello"⟩] (-1) =
      Except.ok ("hello".take 100 ++ "...") ∧
    responseSnippet [⟨"hello"⟩] (-2) =
      Except.error "list index out of range" ∧
    analyze_feedback_patterns (some ⟨[⟨"A", "B", "", -2⟩]⟩) [⟨"hello"⟩] =
      none := by
  refine ⟨?_, ?_, ?_, ?_, ?_⟩
  · have := (claim_C8 [⟨"hello"⟩] 0).2.1 (by decide) (by decide)
    simpa using this
  · exact (claim_C8 [⟨"hello"⟩] 3).1 (by decide)
  · have := (claim_C8 [⟨"hello"⟩] (-1)).2.2.1 (by decide) (by decide)
      (by decide)
    simpa using this
  · exact (claim_C8 [⟨"hello"⟩] (-2)).2.2.2.1 (by decide)
  · exact (claim_C8 [⟨"hello"⟩] (-2)).2.2.2.2 ⟨[⟨"A", "B", "", -2⟩]⟩
      ⟨"A", "B", "", -2⟩ (by simp) (by decide)

/-- C9: `analyze_feedback_patterns` returns `None` for a missing
feedback dict and for an empty corrections list, and any internal error
of the analysis body is caught and surfaced as `None` rather than
propagated (the Lean embedding is a total function, so no input can
raise). -/
theorem claim_C9 :
    (∀ res, analyze_feedback_patterns none res = none) ∧
    (∀ (fd : FeedbackData) res, fd.feedback = [] →
      analyze_feedback_patterns (some fd) res = none) ∧
    (∀ fd res e, analyzeBody fd res = Except.error e →
      analyze_feedback_patterns fd res = none) := by
  refine ⟨fun res => rfl, ?_, ?_⟩
  · intro fd res hfd
    unfold analyze_feedback_patterns
    rw [analyzeBody_empty res hfd]
  · intro fd res e he
    unfold analyze_feedback_patterns
    rw [he]

/-- C9 (witness): the claim applied at concrete inputs, including one
whose body raises `IndexError` internally. -/
theorem claim_C9_wit :
    analyze_feedback_patterns (some ⟨[]⟩) [⟨"X"⟩] = none ∧
    analyze_feedback_patterns (some ⟨[⟨"A", "B", "", -7⟩]⟩) [⟨"X"⟩] =
      none :=
  ⟨claim_C9.2.1 ⟨[]⟩ [⟨"X"⟩] rfl,
   claim_C9.2.2 (some ⟨[⟨"A", "B", "", -7⟩]⟩) [⟨"X"⟩]
     "list index out of range" (by rfl)⟩

/-- Unfolding equation of `generate_refined_prompt` on a present
analysis. -/
theorem generate_refined_prompt_some (gen : String → Except String String)
    (original_prompt : String) (fa : FeedbackAnalysis)
    (classes : List (String × ClassInfo)) (summary_description : String) :
    generate_refined_prompt gen original_prompt (some fa) classes
        summary_description =
      if fa.misclassification_patterns = [] then
        ((original_prompt, "No significant patterns found for improvement."),
          0)
      else
        match gen (refinementRequest original_prompt fa classes
            summary_description) with
        | Except.error e =>
            ((original_prompt, "Error generating improvements: " ++ e), 1)
        | Except.ok improved_prompt =>
            match gen (rationaleRequest (improvementContext fa)) with
            | Except.error e =>
                ((original_prompt, "Error generating improvements: " ++ e), 2)
            | Except.ok rationale =>
                ((improved_prompt.trim, rationale.trim), 2) := rfl

/-! ## Claims about the prompt refiner and the iteration counter -/

/-- C3: `generate_refined_prompt` never propagates an exception.  With
a missing analysis or an empty `misclassification_patterns` mapping it
returns the original prompt with the no-op message and issues zero
delegated completion calls; when either delegated call fails it returns
the original prompt paired with an error-description string (the Lean
embedding is a total function, so nothing can escape as an
exception). -/
theorem claim_C3 (gen : String → Except String String)
    (original_prompt : String) (classes : List (String × ClassInfo))
    (summary_description : String) :
    (generate_refined_prompt gen original_prompt none classes
        summary_description =
      ((original_prompt, "No significant patterns found for improvement."),
        0)) ∧
    (∀ fa : FeedbackAnalysis, fa.misclassification_patterns = [] →
      generate_refined_prompt gen original_prompt (some fa) classes
          summary_description =
        ((original_prompt, "No significant patterns found for improvement."),
          0)) ∧
    (∀ fa : FeedbackAnalysis, fa.misclassification_patterns ≠ [] →
      ∀ e, gen (refinementRequest original_prompt fa classes
          summary_description) = Except.error e →
        generate_refined_prompt gen original_prompt (some fa) classes
            summary_description =
          ((original_prompt, "Error generating improvements: " ++ e), 1)) ∧
    (∀ fa : FeedbackAnalysis, fa.misclassification_patterns ≠ [] →
      ∀ improved e, gen (refinementRequest original_prompt fa classes
          summary_description) = Except.ok improved →
        gen (rationaleRequest (improvementContext fa)) = Except.error e →
        generate_refined_prompt gen original_prompt (some fa) classes
            summary_description =
          ((original_prompt, "Error generating improvements: " ++ e), 2)) ∧
    (∀ fa : FeedbackAnalysis, fa.misclassification_patterns ≠ [] →
      ∀ improved rationale,
        gen (refinementRequest original_prompt fa classes
          summary_description) = Except.ok improved →
        gen (rationaleRequest (improvementContext fa)) =
          Except.ok rationale →
        generate_refined_prompt gen original_prompt (some fa) classes
            summary_description =
          ((improved.trim, rationale.trim), 2)) := by
  refine ⟨rfl, ?_, ?_, ?_, ?_⟩
  · intro fa hfa
    rw [generate_refined_prompt_some, if_pos hfa]
  · intro fa hfa e he
    rw [generate_refined_prompt_some, if_neg hfa, he]
  · intro fa hfa improved e h1 h2
    rw [generate_refined_prompt_some, if_neg hfa, h1, h2]
  · intro fa hfa improved rationale h1 h2
    rw [generate_refined_prompt_some, if_neg hfa, h1, h2]

/-- C3 (witness): the claim applied with concrete oracles — one that
always fails, and the no-op paths with a missing and with a
pattern-free analysis. -/
theorem claim_C3_wit :
    (generate_refined_prompt (fun _ => Except.error "boom") "p" none []
        "s" = ((("p" : String),
          ("No significant patterns found for improvement." : String)),
          (0 : Nat))) ∧
    (generate_refined_prompt (fun _ => Except.error "boom") "p"
        (some (FeedbackAnalysis.mk 0 [] [] [] [])) [] "s" =
      ((("p" : String),
        ("No significant patterns found for improvement." : String)),
        (0 : Nat))) ∧
    (generate_refined_prompt (fun _ => Except.error "boom") "p"
        (some (FeedbackAnalysis.mk 1 [("A → B", ⟨1, []⟩)] [] [] []))
        [] "s" =
      ((("p" : String),
        ("Error generating improvements: boom" : String)), (1 : Nat))) :=
  ⟨(claim_C3 (fun _ => Except.error "boom") "p" [] "s").1,
   (claim_C3 (fun _ => Except.error "boom") "p" [] "s").2.1
     (FeedbackAnalysis.mk 0 [] [] [] []) rfl,
   (claim_C3 (fun _ => Except.error "boom") "p" [] "s").2.2.1
     (FeedbackAnalysis.mk 1 [("A → B", ⟨1, []⟩)] [] [] [])
     (by simp) "boom" rfl⟩

/-- C4: within a session the iteration count starts at 0;
`increment_iteration_count` adds exactly 1 (both in the stored session
and in its return value); no event other than starting a brand-new
session decreases the count, and each non-reset step changes it by 0 or
exactly 1, while a new session returns it to 0; every reachable state's
count is at most the constant cap 3; an `/iterate_prompt` refinement
request is rejected with the state unchanged once the count equals 3;
and rejecting a refinement never changes the count. -/
theorem claim_C4 :
    get_iteration_count initWorkflowState.session = 0 ∧
    (∀ s : PySession, (increment_iteration_count s).2 =
        get_iteration_count s + 1 ∧
      get_iteration_count (increment_iteration_count s).1 =
        get_iteration_count s + 1) ∧
    (∀ st e, e ≠ IterEvent.newSession →
      get_iteration_count st.session ≤
        get_iteration_count ((iterStep st e).1).session) ∧
    (∀ st e, e ≠ IterEvent.newSession →
      (get_iteration_count ((iterStep st e).1).session =
          get_iteration_count st.session ∨
        get_iteration_count ((iterStep st e).1).session =
          get_iteration_count st.session + 1)) ∧
    (∀ st, get_iteration_count
        ((iterStep st IterEvent.newSession).1).session = 0) ∧
    (∀ st, ReachableIter st → get_iteration_count st.session ≤ 3) ∧
    (∀ st, get_iteration_count st.session = 3 →
      iterStep st IterEvent.iterateRequest = (st, IterResponse.rejected)) ∧
    (∀ st, get_iteration_count
        ((iterStep st IterEvent.reject).1).session =
      get_iteration_count st.session) := by
  have hinc : ∀ s : PySession, (increment_iteration_count s).2 =
        get_iteration_count s + 1 ∧
      get_iteration_count (increment_iteration_count s).1 =
        get_iteration_count s + 1 := by
    intro s
    simp [increment_iteration_count, get_iteration_count]
  have hinv : ∀ st, ReachableIter st →
      get_iteration_count st.session ≤ 3 ∧
        (st.pending = true → get_iteration_count st.session < 3) := by
    intro st h
    induction h with
    | init => simp [initWorkflowState, get_iteration_count]
    | @step st' e _ ih =>
        rcases ih with ⟨h3, hp⟩
        cases e with
        | newSession =>
            simp [iterStep, reset_iteration_count, get_iteration_count]
        | iterateRequest =>
            by_cases hc : 3 ≤ get_iteration_count st'.session
            · simp only [iterStep, if_pos hc]
              exact ⟨h3, hp⟩
            · simp only [iterStep, if_neg hc]
              exact ⟨h3, fun _ => by omega⟩
        | approve =>
            by_cases hpend : st'.pending = true
            · simp only [iterStep, if_pos hpend]
              have := hp hpend
              refine ⟨?_, fun hfalse => by cases hfalse⟩
              rw [(hinc st'.session).2]
              omega
            · simp only [iterStep, if_neg hpend]
              exact ⟨h3, hp⟩
        | reject =>
            simp only [iterStep]
            exact ⟨h3, fun hfalse => by cases hfalse⟩
        | autoApply =>
            by_cases hc : get_iteration_count st'.session < 3
            · simp only [iterStep, if_pos hc]
              refine ⟨?_, fun hfalse => by cases hfalse⟩
              rw [(hinc st'.session).2]
              omega
            · simp only [iterStep, if_neg hc]
              exact ⟨h3, hp⟩
  refine ⟨rfl, hinc, ?_, ?_, ?_, fun st h => (hinv st h).1, ?_, ?_⟩
  · intro st e hne
    cases e with
    | newSession => exact absurd rfl hne
    | iterateRequest =>
        by_cases hc : 3 ≤ get_iteration_count st.session <;>
          simp [iterStep, hc]
    | approve =>
        by_cases hpend : st.pending = true <;>
          simp [iterStep, hpend, (hinc st.session).2]
    | reject => simp [iterStep]
    | autoApply =>
        by_cases hc : get_iteration_count st.session < 3 <;>
          simp [iterStep, hc, (hinc st.session).2]
  · intro st e hne
    cases e with
    | newSession => exact absurd rfl hne
    | iterateRequest =>
        by_cases hc : 3 ≤ get_iteration_count st.session <;>
          simp [iterStep, hc]
    | approve =>
        by_cases hpend : st.pending = true <;>
          simp [iterStep, hpend, (hinc st.session).2]
    | reject => simp [iterStep]
    | autoApply =>
        by_cases hc : get_iteration_count st.session < 3 <;>
          simp [iterStep, hc, (hinc st.session).2]
  · intro st
    simp [iterStep, reset_iteration_count, get_iteration_count]
  · intro st h3
    simp [iterStep, h3]
  · intro st
    simp [iterStep]

/-- C4 (witness): the claim applied at concrete states — the bound at
the initial (reachable) state, the rejection of a fourth iteration at
count 3, and monotonicity of a concrete approve step. -/
theorem claim_C4_wit :
    get_iteration_count initWorkflowState.session ≤ 3 ∧
    iterStep ⟨⟨some 3⟩, false⟩ IterEvent.iterateRequest =
      ((⟨⟨some 3⟩, false⟩ : WorkflowState), IterResponse.rejected) ∧
    get_iteration_count (⟨⟨some 1⟩, true⟩ : WorkflowState).session ≤
      get_iteration_count
        ((iterStep ⟨⟨some 1⟩, true⟩ IterEvent.approve).1).session :=
  ⟨claim_C4.2.2.2.2.2.1 initWorkflowState ReachableIter.init,
   claim_C4.2.2.2.2.2.2.1 ⟨⟨some 3⟩, false⟩ (by rfl),
   claim_C4.2.2.1 ⟨⟨some 1⟩, true⟩ IterEvent.approve (by simp)⟩

/-! ## The matcher on two identical sequences -/

theorem mem_b2jGet {b : List String} {x : String} {j : Nat} :
    j ∈ b2jGet b x ↔
      isPopular b x = false ∧ j < b.length ∧ b.getD j "" = x := by
  unfold b2jGet
  by_cases hp : isPopular b x = true
  · rw [if_pos hp]
    simp [hp]
  · have hp' : isPopular b x = false := by simpa using hp
    rw [if_neg hp]
    unfold b2jPositions
    rw [List.mem_filter, List.mem_range]
    constructor
    · rintro ⟨h1, h2⟩
      exact ⟨hp', h1, by simpa using h2⟩
    · rintro ⟨_, h2, h3⟩
      exact ⟨h2, by simpa using h3⟩

theorem b2jGet_pairwise (b : List String) (x : String) :
    (b2jGet b x).Pairwise (· < ·) := by
  unfold b2jGet
  by_cases hp : isPopular b x
  · simp [hp]
  · simp only [hp, if_false, Bool.false_eq_true]
    exact (List.pairwise_lt_range b.length).filter _

/-- An element of row `i`'s position list is itself a kept position. -/
theorem row_mem_kept {a : List String} {i j : Nat}
    (h : j ∈ b2jGet a (a.getD i "")) : j ∈ b2jGet a (a.getD j "") := by
  rcases mem_b2jGet.mp h with ⟨hp, hj, hv⟩
  exact mem_b2jGet.mpr ⟨by rwa [hv], hj, rfl⟩

/-- When row `i`'s position list is non-empty and `i` is in range, `i`
itself is in the list. -/
theorem row_self_mem {a : List String} {i j : Nat} (hin : i < a.length)
    (h : j ∈ b2jGet a (a.getD i "")) :
    i ∈ b2jGet a (a.getD i "") := by
  rcases mem_b2jGet.mp h with ⟨hp, _, _⟩
  exact mem_b2jGet.mpr ⟨hp, hin, rfl⟩

theorem nkrun_zero_kept {a : List String}
    (h : 0 ∈ b2jGet a (a.getD 0 "")) : nkrun a 0 = 1 := by
  show (if 0 ∈ b2jGet a (a.getD 0 "") then 1 else 0) = 1
  rw [if_pos h]

theorem nkrun_succ_kept {a : List String} {j : Nat}
    (h : (j + 1) ∈ b2jGet a (a.getD (j + 1) "")) :
    nkrun a (j + 1) = nkrun a j + 1 := by
  show (if (j + 1) ∈ b2jGet a (a.getD (j + 1) "") then nkrun a j + 1
    else 0) = nkrun a j + 1
  rw [if_pos h]

theorem nkrun_of_not_kept {a : List String} {j : Nat}
    (h : j ∉ b2jGet a (a.getD j "")) : nkrun a j = 0 := by
  cases j with
  | zero =>
      show (if 0 ∈ b2jGet a (a.getD 0 "") then 1 else 0) = 0
      rw [if_neg h]
  | succ j' =>
      show (if (j' + 1) ∈ b2jGet a (a.getD (j' + 1) "") then nkrun a j' + 1
        else 0) = 0
      rw [if_neg h]

theorem updMap_bound {new : Nat → Nat} {j k : Nat} {f : Nat → Nat}
    (hk : k ≤ f j) (hother : ∀ j', new j' ≤ f j') :
    ∀ j', (fun j'' => if j'' = j then k else new j'') j' ≤ f j' := by
  intro j'
  show (if j' = j then k else new j') ≤ f j'
  by_cases hjj : j' = j
  · rw [if_pos hjj, hjj]
    exact hk
  · rw [if_neg hjj]
    exact hother j'

theorem updMap_self {new : Nat → Nat} {j k : Nat} :
    (fun j'' => if j'' = j then k else new j'') j = k := by
  show (if j = j then k else new j) = k
  rw [if_pos rfl]

theorem updMap_other {new : Nat → Nat} {j k i : Nat} (h : i ≠ j) :
    (fun j'' => if j'' = j then k else new j'') i = new i := by
  show (if i = j then k else new i) = new i
  rw [if_neg h]

/-- One row of the matcher's loop on two identical sequences: off-band
candidates never displace the running best, which therefore stays on
the diagonal, and after the row the best covers the kept run ending at
this row. -/
theorem flmRowDiag {a : List String} {i : Nat} {j2len : Nat → Nat}
    (hin : i < a.length)
    (hprev1 : ∀ j', j2len j' ≤ nkrun a j')
    (hprev2 : ∀ j', j2len j' ≤ (if i = 0 then 0 else nkrun a (i - 1)))
    (hprevDiag : i ≠ 0 → j2len (i - 1) = nkrun a (i - 1)) :
    ∀ (S : List Nat) (new : Nat → Nat) (best : FlmBest),
      (∀ j ∈ S, j ∈ b2jGet a (a.getD i "")) →
      S.Pairwise (· < ·) →
      best.besti = best.bestj →
      (∀ r, r < i → nkrun a r ≤ best.bestsize) →
      (∀ j', new j' ≤ best.bestsize) →
      (∀ j', new j' ≤ nkrun a j') →
      (∀ j', new j' ≤ nkrun a i) →
      (i ∈ S ∨ new i = nkrun a i) →
      RowOut a i best (flmRow 0 a.length i j2len S new best) := by
  intro S
  induction S with
  | nil =>
      intro new best hS hasc hdiag hcov hnewle hnew1 hnew2 hpend
      have hi : new i = nkrun a i := by
        rcases hpend with h | h
        · exact absurd h (List.not_mem_nil i)
        · exact h
      exact ⟨hdiag, le_refl _, hcov, hi, hi ▸ hnewle i, hnew1, hnew2,
        hnewle⟩
  | cons j S' ih =>
      intro new best hS hasc hdiag hcov hnewle hnew1 hnew2 hpend
      have hkj : j ∈ b2jGet a (a.getD i "") := hS j (List.mem_cons_self j S')
      have hjn : j < a.length := (mem_b2jGet.mp hkj).2.1
      have hkjj : j ∈ b2jGet a (a.getD j "") := row_mem_kept hkj
      have hkii : i ∈ b2jGet a (a.getD i "") := row_self_mem hin hkj
      rcases List.pairwise_cons.mp hasc with ⟨hall, htail⟩
      have hS2 : ∀ j'' ∈ S', j'' ∈ b2jGet a (a.getD i "") :=
        fun j'' hj'' => hS j'' (List.mem_cons_of_mem j hj'')
      have hk_nj : (if j = 0 then 0 else j2len (j - 1)) + 1 ≤
          nkrun a j := by
        by_cases hj0 : j = 0
        · rw [if_pos hj0, hj0]
          rw [nkrun_zero_kept (hj0 ▸ hkjj)]
        · obtain ⟨j'', rfl⟩ := Nat.exists_eq_succ_of_ne_zero hj0
          rw [if_neg hj0, Nat.succ_sub_one, nkrun_succ_kept hkjj]
          have := hprev1 j''
          omega
      have hnki1 : 1 ≤ nkrun a i := by
        by_cases hi0 : i = 0
        · rw [hi0, nkrun_zero_kept (hi0 ▸ hkii)]
        · obtain ⟨i'', rfl⟩ := Nat.exists_eq_succ_of_ne_zero hi0
          rw [nkrun_succ_kept hkii]
          omega
      have hk_ni : (if j = 0 then 0 else j2len (j - 1)) + 1 ≤
          nkrun a i := by
        by_cases hj0 : j = 0
        · rw [if_pos hj0]
          exact hnki1
        · rw [if_neg hj0]
          have h2 := hprev2 (j - 1)
          by_cases hi0 : i = 0
          · rw [if_pos hi0] at h2
            omega
          · rw [if_neg hi0] at h2
            obtain ⟨i'', rfl⟩ := Nat.exists_eq_succ_of_ne_zero hi0
            rw [nkrun_succ_kept hkii]
            simp only [Nat.succ_sub_one] at h2
            omega
      simp only [flmRow, if_neg (Nat.not_lt_zero j),
        if_neg (by omega : ¬ a.length ≤ j)]
      rcases Nat.lt_trichotomy j i with hji | hji | hji
      · -- j < i: no update, and the stored value is within bounds
        have hnoup : ¬ (best.bestsize <
            (if j = 0 then 0 else j2len (j - 1)) + 1) := by
          have := hcov j hji
          omega
        rw [if_neg hnoup]
        exact ih _ best hS2 htail hdiag hcov
          (updMap_bound (f := fun _ => best.bestsize)
            (show (if j = 0 then 0 else j2len (j - 1)) + 1 ≤
              best.bestsize by omega) hnewle)
          (updMap_bound (f := nkrun a) hk_nj hnew1)
          (updMap_bound (f := fun _ => nkrun a i) hk_ni hnew2)
          (by
            rcases hpend with h | h
            · rcases List.mem_cons.mp h with h' | h'
              · exact absurd h' (by omega)
              · exact Or.inl h'
            · exact Or.inr
                ((updMap_other (by omega : i ≠ j)).trans h))
      · -- j = i: the diagonal candidate, stored exactly
        have hkeq : (if j = 0 then 0 else j2len (j - 1)) + 1 =
            nkrun a i := by
        -- the chain through the previous row's diagonal value is exact
          by_cases hj0 : j = 0
          · rw [if_pos hj0]
            have hi0 : i = 0 := by omega
            rw [hi0, nkrun_zero_kept (hi0 ▸ hkii)]
          · rw [if_neg hj0]
            have hi0 : i ≠ 0 := by omega
            have hd := hprevDiag hi0
            have hj1 : j - 1 = i - 1 := by omega
            rw [hj1, hd]
            obtain ⟨i'', rfl⟩ := Nat.exists_eq_succ_of_ne_zero hi0
            rw [nkrun_succ_kept hkii]
            simp only [Nat.succ_sub_one]
        by_cases hup : best.bestsize <
            (if j = 0 then 0 else j2len (j - 1)) + 1
        · rw [if_pos hup]
          have H := ih
            (fun j'' => if j'' = j then
              (if j = 0 then 0 else j2len (j - 1)) + 1 else new j'')
            ⟨i + 1 - ((if j = 0 then 0 else j2len (j - 1)) + 1),
             j + 1 - ((if j = 0 then 0 else j2len (j - 1)) + 1),
             (if j = 0 then 0 else j2len (j - 1)) + 1⟩
            hS2 htail (by rw [hji])
            (fun r hr => by
              have := hcov r hr
              show nkrun a r ≤ (if j = 0 then 0 else j2len (j - 1)) + 1
              omega)
            (updMap_bound
              (f := fun _ => (if j = 0 then 0 else j2len (j - 1)) + 1)
              (le_refl _)
              (fun j' => by
                have := hnewle j'
                show new j' ≤ (if j = 0 then 0 else j2len (j - 1)) + 1
                omega))
            (updMap_bound (f := nkrun a) hk_nj hnew1)
            (updMap_bound (f := fun _ => nkrun a i) hk_ni hnew2)
            (Or.inr (by
              have h0 : (fun j'' => if j'' = j then
                  (if j = 0 then 0 else j2len (j - 1)) + 1 else new j'') i =
                  (if j = 0 then 0 else j2len (j - 1)) + 1 := by
                show (if i = j then (if j = 0 then 0 else j2len (j - 1)) + 1
                  else new i) = (if j = 0 then 0 else j2len (j - 1)) + 1
                rw [if_pos hji.symm]
              exact h0.trans hkeq))
          refine ⟨H.diag, ?_, H.cov, H.selfVal, H.selfCov, H.mapRun,
            H.mapRow, H.mapLe⟩
          have hmono' : (if j = 0 then 0 else j2len (j - 1)) + 1 ≤ _ :=
            H.mono
          omega
        · rw [if_neg hup]
          exact ih _ best hS2 htail hdiag hcov
            (updMap_bound (f := fun _ => best.bestsize)
            (show (if j = 0 then 0 else j2len (j - 1)) + 1 ≤
              best.bestsize by omega) hnewle)
            (updMap_bound (f := nkrun a) hk_nj hnew1)
            (updMap_bound (f := fun _ => nkrun a i) hk_ni hnew2)
            (Or.inr (by
              have h0 : (fun j'' => if j'' = j then
                  (if j = 0 then 0 else j2len (j - 1)) + 1 else new j'') i =
                  (if j = 0 then 0 else j2len (j - 1)) + 1 := by
                show (if i = j then (if j = 0 then 0 else j2len (j - 1)) + 1
                  else new i) = (if j = 0 then 0 else j2len (j - 1)) + 1
                rw [if_pos hji.symm]
              exact h0.trans hkeq))
      · -- i < j: everything in this ascending row is past the diagonal,
        -- whose stored value already bounds the candidate
        have hi_new : new i = nkrun a i := by
          rcases hpend with h | h
          · rcases List.mem_cons.mp h with h' | h'
            · exact absurd h' (by omega)
            · exact absurd (hall i h') (by omega)
          · exact h
        have hnoup : ¬ (best.bestsize <
            (if j = 0 then 0 else j2len (j - 1)) + 1) := by
          have h1 := hnewle i
          rw [hi_new] at h1
          omega
        rw [if_neg hnoup]
        exact ih _ best hS2 htail hdiag hcov
          (updMap_bound (f := fun _ => best.bestsize)
            (show (if j = 0 then 0 else j2len (j - 1)) + 1 ≤
              best.bestsize by omega) hnewle)
          (updMap_bound (f := nkrun a) hk_nj hnew1)
          (updMap_bound (f := fun _ => nkrun a i) hk_ni hnew2)
          (Or.inr ((updMap_other (by omega : i ≠ j)).trans hi_new))

/-- The matcher's full loop on two identical sequences keeps the best
on the diagonal. -/
theorem flmRowsDiag {a : List String} :
    ∀ (cnt s : Nat) (j2len : Nat → Nat) (best : FlmBest),
      s + cnt = a.length →
      (∀ j', j2len j' ≤ nkrun a j') →
      (∀ j', j2len j' ≤ (if s = 0 then 0 else nkrun a (s - 1))) →
      (s ≠ 0 → j2len (s - 1) = nkrun a (s - 1)) →
      best.besti = best.bestj →
      (∀ r, r < s → nkrun a r ≤ best.bestsize) →
      ((flmRows a a 0 a.length (List.range' s cnt) j2len best).besti =
        (flmRows a a 0 a.length (List.range' s cnt) j2len best).bestj) ∧
      (∀ r, r < a.length → nkrun a r ≤
        (flmRows a a 0 a.length (List.range' s cnt) j2len best).bestsize) := by
  intro cnt
  induction cnt with
  | zero =>
      intro s j2len best hsum h1 h2 h3 hdiag hcov
      refine ⟨hdiag, ?_⟩
      intro r hr
      exact hcov r (by omega)
  | succ m ih =>
      intro s j2len best hsum h1 h2 h3 hdiag hcov
      rw [List.range'_succ]
      simp only [flmRows]
      by_cases hL : b2jGet a (a.getD s "") = []
      · rw [hL]
        simp only [flmRow]
        have hks : s ∉ b2jGet a (a.getD s "") := by
          rw [hL]
          exact List.not_mem_nil s
        have hnk0 : nkrun a s = 0 := nkrun_of_not_kept hks
        exact ih (s + 1) _ _ (by omega)
          (fun j' => Nat.zero_le _)
          (fun j' => Nat.zero_le _)
          (fun _ => by
            show (0 : Nat) = nkrun a (s + 1 - 1)
            rw [Nat.succ_sub_one, hnk0])
          hdiag
          (fun r hr => by
            rcases Nat.lt_succ_iff_lt_or_eq.mp hr with hr' | hr'
            · exact hcov r hr'
            · rw [hr', hnk0]
              exact Nat.zero_le _)
      · have hslen : s < a.length := by omega
        obtain ⟨j0, hj0⟩ := List.exists_mem_of_ne_nil _ hL
        have hks : s ∈ b2jGet a (a.getD s "") := row_self_mem hslen hj0
        have H := flmRowDiag hslen h1 h2 h3
          (b2jGet a (a.getD s "")) (fun _ => 0) best
          (fun j hj => hj) (b2jGet_pairwise a _) hdiag hcov
          (fun _ => Nat.zero_le _) (fun _ => Nat.zero_le _)
          (fun _ => Nat.zero_le _) (Or.inl hks)
        exact ih (s + 1) _ _ (by omega)
          H.mapRun
          (fun j' => by
            rw [if_neg (Nat.succ_ne_zero s), Nat.succ_sub_one]
            exact H.mapRow j')
          (fun _ => by
            rw [Nat.succ_sub_one]
            exact H.selfVal)
          H.diag
          (fun r hr => by
            rcases Nat.lt_succ_iff_lt_or_eq.mp hr with hr' | hr'
            · exact H.cov r hr'
            · rw [hr']
              exact H.selfCov)

theorem extendLo_identical {a : List String} :
    ∀ best : FlmBest, best.besti = best.bestj →
      extendLo a a noJunk 0 0 best =
        ⟨0, 0, best.bestsize + best.besti⟩ := by
  intro best
  induction best using extendLo.induct a a noJunk 0 0 with
  | case1 best h ih =>
      intro hdiag
      rw [extendLo, dif_pos h]
      have hd : (FlmBest.mk (best.besti - 1) (best.bestj - 1)
          (best.bestsize + 1)).besti =
          (FlmBest.mk (best.besti - 1) (best.bestj - 1)
          (best.bestsize + 1)).bestj := by
        show best.besti - 1 = best.bestj - 1
        rw [hdiag]
      rw [ih hd]
      have h1 : 0 < best.besti := h.1
      have he : best.bestsize + 1 + (best.besti - 1) =
          best.bestsize + best.besti := by omega
      show (FlmBest.mk 0 0 (best.bestsize + 1 + (best.besti - 1))) = _
      rw [he]
  | case2 best h =>
      intro hdiag
      rw [extendLo, dif_neg h]
      have hbi : best.besti = 0 := by
        by_contra hne
        exact h ⟨by omega, by rw [← hdiag]; omega, rfl, by rw [hdiag]⟩
      have hbj : best.bestj = 0 := by omega
      rcases best with ⟨bi, bj, bs⟩
      simp only at hbi hbj
      rw [hbi, hbj]
      show FlmBest.mk 0 0 bs = FlmBest.mk 0 0 (bs + 0)
      rw [Nat.add_zero]

theorem extendHi_identical (a : List String) :
    ∀ (d s : Nat), a.length - s = d → s ≤ a.length →
      extendHi a a noJunk a.length a.length ⟨0, 0, s⟩ =
        ⟨0, 0, a.length⟩ := by
  intro d
  induction d with
  | zero =>
      intro s hd hs
      rw [extendHi, dif_neg]
      · show FlmBest.mk 0 0 s = _
        rw [show s = a.length by omega]
      · rintro ⟨hc, -, -, -⟩
        revert hc
        show ¬ ((0 : Nat) + s < a.length)
        omega
  | succ m ih =>
      intro s hd hs
      rw [extendHi, dif_pos ⟨show (0 : Nat) + s < a.length by omega,
        show (0 : Nat) + s < a.length by omega, rfl, rfl⟩]
      exact ih (s + 1) (by omega) (by omega)

theorem extendLoJunk_noJunk {a b : List String} {alo blo : Nat}
    (best : FlmBest) : extendLoJunk a b noJunk alo blo best = best := by
  rw [extendLoJunk, dif_neg]
  rintro ⟨-, -, hj, -⟩
  exact absurd hj (by simp [noJunk])

theorem extendHiJunk_noJunk {a b : List String} {ahi bhi : Nat}
    (best : FlmBest) : extendHiJunk a b noJunk ahi bhi best = best := by
  rw [extendHiJunk, dif_neg]
  rintro ⟨-, -, hj, -⟩
  exact absurd hj (by simp [noJunk])

/-- `find_longest_match` over the full windows of two identical
sequences returns the whole sequence as one match. -/
theorem flm_identical (a : List String) :
    find_longest_match a a noJunk 0 a.length 0 a.length =
      ⟨0, 0, a.length⟩ := by
  unfold find_longest_match
  simp only [Nat.sub_zero]
  have Hd := (flmRowsDiag (a := a) a.length 0 (fun _ => 0) ⟨0, 0, 0⟩
    (by omega) (fun _ => Nat.zero_le _) (fun _ => Nat.zero_le _)
    (fun h => absurd rfl h) rfl
    (fun r hr => absurd hr (Nat.not_lt_zero r))).1
  have Hinv := @flmRows_inv a a 0 a.length 0 a.length
    a.length 0 (fun _ => 0) ⟨0, 0, 0⟩ (Nat.zero_le _) (by omega)
    (fun j' => ⟨Nat.zero_le _, fun h => absurd rfl h⟩)
    ⟨le_refl _, le_refl _, fun _ => ⟨rfl, rfl⟩, fun h => absurd rfl h⟩
  rw [extendLo_identical _ Hd]
  have hs : (flmRows a a 0 a.length (List.range' 0 a.length)
      (fun _ => 0) ⟨0, 0, 0⟩).bestsize +
      (flmRows a a 0 a.length (List.range' 0 a.length)
      (fun _ => 0) ⟨0, 0, 0⟩).besti ≤ a.length := by
    rcases Hinv with ⟨h1, h2, h0, h4⟩
    by_cases hz : (flmRows a a 0 a.length (List.range' 0 a.length)
        (fun _ => 0) ⟨0, 0, 0⟩).bestsize = 0
    · rw [hz, (h0 hz).1]
      simp
    · have := h4 hz
      omega
  rw [extendHi_identical a _ _ rfl hs]
  rw [extendLoJunk_noJunk, extendHiJunk_noJunk]

/-- `get_matching_blocks` on two identical sequences: one full-length
block (when non-empty) plus the sentinel. -/
theorem gmb_identical (a : List String) :
    get_matching_blocks a a noJunk =
      (if a.length = 0 then [] else [(0, 0, a.length)]) ++
        [(a.length, a.length, 0)] := by
  unfold get_matching_blocks
  by_cases hn : a.length = 0
  · have hflm := flm_identical a
    rw [hn] at hflm
    rw [hn]
    rw [gmbQueue]
    simp [gmbQueue, hflm, sortBlocks, mergeAdjacent]
  · simp [gmbQueue, flm_identical, hn, sortBlocks, insertBlock,
      mergeAdjacent]

theorem get_opcodes_identical (a : List String) :
    get_opcodes a a noJunk =
      if a.length = 0 then []
      else [⟨Tag.equal, 0, a.length, 0, a.length⟩] := by
  unfold get_opcodes
  rw [gmb_identical]
  by_cases hn : a.length = 0
  · rw [if_pos hn, if_pos hn]
    simp [opcodesLoop, hn]
  · rw [if_neg hn, if_neg hn]
    simp [opcodesLoop, hn]

theorem matchesOf_identical (a : List String) :
    matchesOf a a noJunk = a.length := by
  unfold matchesOf
  rw [gmb_identical]
  by_cases hn : a.length = 0
  · rw [if_pos hn]
    simp [hn]
  · rw [if_neg hn]
    simp

theorem seqRatio_identical (a : List String) :
    seqRatio a a noJunk = 1 := by
  unfold seqRatio
  by_cases hn : a.length = 0
  · rw [if_neg (by omega : ¬ (a.length + a.length ≠ 0))]
  · rw [if_pos (by omega : a.length + a.length ≠ 0),
      matchesOf_identical]
    have h2 : ((a.length + a.length : Nat) : ℚ) = 2 * (a.length : ℚ) := by
      push_cast
      ring
    rw [h2]
    exact div_self (mul_ne_zero two_ne_zero (Nat.cast_ne_zero.mpr hn))

theorem pyRound1_hundred : pyRound1 100 = 100 := by
  norm_num [pyRound1]

/-- The flattened key-change lists of a run of opcodes are exactly one
spec-side entry per non-equal opcode, in order. -/
theorem keyChange_flatten (ow nw : List String) :
    ∀ ops : List Opcode,
      ((ops.map (keyChangeOf ow nw)).flatten) =
        (ops.filter (fun op => op.tag ≠ Tag.equal)).map
          (keyChangeSpec ow nw) := by
  intro ops
  induction ops with
  | nil => rfl
  | cons op rest ih =>
      simp only [List.map_cons, List.flatten_cons, List.filter_cons]
      rcases op with ⟨tag, i1, i2, j1, j2⟩
      cases tag <;> simp [keyChangeOf, keyChangeSpec, ih]

/-- C5: `changes_count` is the number of non-equal opcodes of the
word-level alignment (a replace counts once), `similarity_ratio` is
`2 * matches / (len(old_tokens) + len(new_tokens))` as a percentage
rounded to one decimal place (whenever at least one side has tokens),
and on any non-empty string `x`, `create_intelligent_diff x x` yields
`changes_count = 0` and `similarity_ratio = 100.0`. -/
theorem claim_C5 (old_prompt new_prompt x : String) (hx : x ≠ "") :
    (create_intelligent_diff old_prompt new_prompt).changes_count =
      ((get_opcodes (pySplit old_prompt) (pySplit new_prompt)
        noJunk).filter (fun op => op.tag ≠ Tag.equal)).length ∧
    ((pySplit old_prompt).length + (pySplit new_prompt).length ≠ 0 →
      (create_intelligent_diff old_prompt new_prompt).similarity_ratio =
        pyRound1 (2 * (matchesOf (pySplit old_prompt)
          (pySplit new_prompt) noJunk : ℚ) /
          (((pySplit old_prompt).length + (pySplit new_prompt).length :
            Nat) : ℚ) * 100)) ∧
    (create_intelligent_diff x x).changes_count = 0 ∧
    (create_intelligent_diff x x).similarity_ratio = 100 := by
  refine ⟨rfl, ?_, ?_, ?_⟩
  · intro hnz
    show pyRound1 (seqRatio (pySplit old_prompt) (pySplit new_prompt)
      noJunk * 100) = _
    unfold seqRatio
    rw [if_pos hnz]
  · show ((get_opcodes (pySplit x) (pySplit x) noJunk).filter
      (fun op => op.tag ≠ Tag.equal)).length = 0
    rw [get_opcodes_identical]
    by_cases hn : (pySplit x).length = 0
    · rw [if_pos hn]
      rfl
    · rw [if_neg hn]
      rfl
  · show pyRound1 (seqRatio (pySplit x) (pySplit x) noJunk * 100) = 100
    rw [seqRatio_identical, one_mul]
    norm_num [pyRound1]

theorem claim_C5_wit :
    ("a" : String) ≠ "" ∧
    ((create_intelligent_diff "a" "a").changes_count = 0 ∧
      (create_intelligent_diff "a" "a").similarity_ratio = 100) :=
  ⟨by decide, (claim_C5 "a" "b" "a" (by decide)).2.2⟩

/-- C6: `key_changes` has at most 5 entries, and equals the first 5 of
one spec-side entry (with the stated truncations and ellipsis
thresholds) per non-equal opcode, in the opcodes' original order. -/
theorem claim_C6 (old_prompt new_prompt : String) :
    (create_intelligent_diff old_prompt new_prompt).key_changes.length
      ≤ 5 ∧
    (create_intelligent_diff old_prompt new_prompt).key_changes =
      (((get_opcodes (pySplit old_prompt) (pySplit new_prompt)
        noJunk).filter (fun op => op.tag ≠ Tag.equal)).map
        (keyChangeSpec (pySplit old_prompt) (pySplit new_prompt))).take
        5 := by
  constructor
  · show ((((get_opcodes (pySplit old_prompt) (pySplit new_prompt)
      noJunk).map (keyChangeOf (pySplit old_prompt)
      (pySplit new_prompt))).flatten).take 5).length ≤ 5
    rw [List.length_take]
    exact min_le_left _ _
  · show (((get_opcodes (pySplit old_prompt) (pySplit new_prompt)
      noJunk).map (keyChangeOf (pySplit old_prompt)
      (pySplit new_prompt))).flatten).take 5 = _
    rw [keyChange_flatten]

/-- C10: both the success path and the degraded `except` path of
`create_intelligent_diff` return `original_prompt` and
`improved_prompt` verbatim equal to the two arguments. -/
theorem claim_C10 (old_prompt new_prompt : String) :
    ((create_intelligent_diff old_prompt new_prompt).original_prompt =
        old_prompt ∧
      (create_intelligent_diff old_prompt new_prompt).improved_prompt =
        new_prompt) ∧
    ((create_intelligent_diff_error old_prompt
        new_prompt).original_prompt = old_prompt ∧
      (create_intelligent_diff_error old_prompt
        new_prompt).improved_prompt = new_prompt) :=
  ⟨⟨rfl, rfl⟩, ⟨rfl, rfl⟩⟩

end S2P
